import Mathlib

/-!
Verification of the Squalr memory-scanning engine against its specification.

Shallow embedding of the scanning core:
* the run-length encoder and aligned SIMD vector scanner (§4.6 of the spec,
  `scanner_vector_aligned.rs`),
* snapshot-region memory reading (§4.3, `snapshot_region_memory_reader.rs`),
* the pointer scanner (§4.7, `pointer_scan_executor_task.rs`),
* progress reporting of the background tasks (§4.4, §4.7),
* element-scan alignment selection (§4.5, `element_scan_request_executor.rs`),
* memory queryer page retrieval with its fallback cascade (§4.1, `memory_queryer.rs`),
* the AOB data type's hex parse/format (`data_type_aob.rs`).

Machine integers are modelled as `Nat`; all the modelled arithmetic stays far
below 2^64 overflow except where the Rust source itself uses saturating
operations, which are modelled with truncated `Nat` subtraction (identical
semantics on the relevant range).
-/

namespace Squalr

/-- A scan-result filter: a `(base_address, region_size)` sub-region of a snapshot
region (`SnapshotRegionFilter` in the source). -/
structure SnapshotRegionFilter where
  base_address : Nat
  region_size : Nat
  deriving Repr, DecidableEq

/-- Modelled from the spec: `SnapshotRegionFilterRunLengthEncoder` (the run-length
encoder of §4.6, whose own source file is not under `src/`; only its caller
`scanner_vector_aligned.rs` is). State per the spec contract: the current run's
base address, the current run's length, and the emitted regions. -/
structure SnapshotRegionFilterRunLengthEncoder where
  run_start_address : Nat
  run_length : Nat
  result_regions : List SnapshotRegionFilter
  deriving Repr, DecidableEq

namespace SnapshotRegionFilterRunLengthEncoder

/-- Modelled from the spec: a fresh encoder keyed on the filter's base address. -/
def new (base_address : Nat) : SnapshotRegionFilterRunLengthEncoder :=
  { run_start_address := base_address, run_length := 0, result_regions := [] }

/-- Modelled from the spec: `encode_range(stride)` extends the current run by `stride`. -/
def encode_range (encoder : SnapshotRegionFilterRunLengthEncoder) (stride : Nat) :
    SnapshotRegionFilterRunLengthEncoder :=
  { encoder with run_length := encoder.run_length + stride }

/-- Modelled from the spec: `finalize_current_encode(stride)`: if the current run is
non-empty, push `(run base, run length)` onto the emitted regions; advance the cursor
past the run and past `stride`; reset the run. -/
def finalize_current_encode (encoder : SnapshotRegionFilterRunLengthEncoder) (stride : Nat) :
    SnapshotRegionFilterRunLengthEncoder :=
  if 0 < encoder.run_length then
    { run_start_address := encoder.run_start_address + encoder.run_length + stride
      run_length := 0
      result_regions := encoder.result_regions ++
        [⟨encoder.run_start_address, encoder.run_length⟩] }
  else
    { encoder with run_start_address := encoder.run_start_address + stride }

/-- Harvest the emitted regions. -/
def take_result_regions (encoder : SnapshotRegionFilterRunLengthEncoder) :
    List SnapshotRegionFilter :=
  encoder.result_regions

end SnapshotRegionFilterRunLengthEncoder

/-- The vectorization plan computed before the aligned scan loop. -/
structure VectorizationPlan where
  vectorizable_iterations : Nat
  remainder_bytes : Nat
  remainder_ptr_offset : Nat
  vector_size_in_bytes : Nat
  element_count : Nat
  deriving Repr, DecidableEq

/-- Modelled from the spec: `VectorGenerics::plan_vector_scan` (§4.6 step 1; its source
file is not under `src/`). Given region size `S`, unit size `U` and lane count `N`
bytes, compute the number of full-vector iterations, the remainder covering the
trailing full elements not reached by the full vectors, and the load offset of the
remainder tail so that the last vector ends at the last full element. Trailing bytes
that cannot hold a full element are ignored, as pinned by the unit test
`aligned_vector_scan_ignores_trailing_bytes_without_full_element` in
`scanner_vector_aligned.rs` (20-byte region, u64, lanes 16 → 16 bytes scanned). -/
def plan_vector_scan (N : Nat) (region_size data_type_size memory_alignment : Nat) :
    VectorizationPlan :=
  let element_count := region_size / memory_alignment
  let used_bytes := element_count * memory_alignment
  let vectorizable_iterations := region_size / N
  { vectorizable_iterations := vectorizable_iterations
    remainder_bytes := used_bytes - vectorizable_iterations * N
    remainder_ptr_offset := used_bytes - N
    vector_size_in_bytes := N
    element_count := element_count }

/-- The byte offsets `start, start+step, ...` strictly below `stop`
(Rust `(start..stop).step_by(step)`; `step > 0` in every use). -/
def rangeStep (start stop step : Nat) : List Nat :=
  if step = 0 then []
  else (List.range ((stop - start + step - 1) / step)).map (fun i => start + i * step)

/-- `ScannerVectorAligned::encode_remainder_results`: walk the final `remainder_bytes`
lanes of the compare result at `memory_alignment` stride, extending the current run on
a non-zero mask byte and finalizing it on a zero mask byte. The compare result vector
is modelled as a function from lane index to mask byte. -/
def encode_remainder_results (N : Nat) (compare_result : Nat → Nat)
    (run_length_encoder : SnapshotRegionFilterRunLengthEncoder)
    (memory_alignment remainder_bytes : Nat) :
    SnapshotRegionFilterRunLengthEncoder :=
  let start_byte_index := N - remainder_bytes
  (rangeStep start_byte_index N memory_alignment).foldl
    (fun encoder byte_index =>
      if compare_result byte_index ≠ 0 then
        encoder.encode_range memory_alignment
      else
        encoder.finalize_current_encode memory_alignment)
    run_length_encoder

/-- `ScannerVectorAligned::encode_results`: all-true fast path extends the run by a
whole vector, all-false fast path finalizes and skips a whole vector, and a mixed
result is processed lane by lane. -/
def encode_results (N : Nat) (compare_result : Nat → Nat)
    (run_length_encoder : SnapshotRegionFilterRunLengthEncoder)
    (memory_alignment : Nat) : SnapshotRegionFilterRunLengthEncoder :=
  if (List.range N).all (fun i => compare_result i == 0xFF) then
    run_length_encoder.encode_range N
  else if (List.range N).all (fun i => compare_result i == 0x00) then
    run_length_encoder.finalize_current_encode N
  else
    encode_remainder_results N compare_result run_length_encoder memory_alignment N

/-- The full-vector loop of `ScannerVectorAligned::scan_region` followed by its
remainder handling (one `ScanFunctionVector` match arm of the source; `Immediate`
and `RelativeOrDelta` differ only in which buffers the comparison reads, which the
abstraction of `compare_func` over a load offset absorbs). -/
def vector_scan_pass (N : Nat) (vectorization_plan : VectorizationPlan)
    (memory_alignment_size : Nat) (compare_func : Nat → Nat → Nat)
    (run_length_encoder : SnapshotRegionFilterRunLengthEncoder) :
    SnapshotRegionFilterRunLengthEncoder :=
  -- Compare as many full vectors as we can.
  let run_length_encoder :=
    (List.range vectorization_plan.vectorizable_iterations).foldl
      (fun encoder index =>
        encode_results N
          (compare_func (index * vectorization_plan.vector_size_in_bytes))
          encoder memory_alignment_size)
      run_length_encoder
  -- Handle remainder elements.
  if 0 < vectorization_plan.remainder_bytes then
    encode_remainder_results N
      (compare_func vectorization_plan.remainder_ptr_offset)
      run_length_encoder memory_alignment_size vectorization_plan.remainder_bytes
  else
    run_length_encoder

/-- The scalar fallback loop of `ScannerVectorAligned::scan_region` (one
`ScanFunctionScalar` match arm; the two arms again collapse under the abstraction). -/
def scalar_scan_pass (element_count memory_alignment_size : Nat)
    (compare_func : Nat → Bool)
    (run_length_encoder : SnapshotRegionFilterRunLengthEncoder) :
    SnapshotRegionFilterRunLengthEncoder :=
  (List.range element_count).foldl
    (fun encoder index =>
      if compare_func (index * memory_alignment_size) then
        encoder.encode_range memory_alignment_size
      else
        encoder.finalize_current_encode memory_alignment_size)
    run_length_encoder

/-- `ScannerVectorAligned::scan_region`. The comparison functions are abstracted over
the memory they read: a vector compare maps a load offset (relative to the filter
base) to the lane mask vector, and a scalar compare maps an element's byte offset to
its boolean result. -/
def scan_region (N : Nat) (base_address region_size data_type_size memory_alignment_size : Nat)
    (scan_function_vector : Option (Nat → Nat → Nat))
    (scan_function_scalar : Option (Nat → Bool)) : List SnapshotRegionFilter :=
  let vectorization_plan := plan_vector_scan N region_size data_type_size memory_alignment_size
  let run_length_encoder := SnapshotRegionFilterRunLengthEncoder.new base_address
  let step1 :=
    if 0 < vectorization_plan.vectorizable_iterations then
      match scan_function_vector with
      | some compare_func =>
        (true, vector_scan_pass N vectorization_plan memory_alignment_size compare_func
          run_length_encoder)
      | none => (false, run_length_encoder)
    else
      (false, run_length_encoder)
  -- For filters smaller than a single vector (or when no vector compare is
  -- available), fall back to scalar.
  let run_length_encoder :=
    if step1.1 then
      step1.2
    else
      match scan_function_scalar with
      | some compare_func =>
        scalar_scan_pass vectorization_plan.element_count memory_alignment_size
          compare_func step1.2
      | none => step1.2
  (run_length_encoder.finalize_current_encode 0).take_result_regions

/-! ### Run-length encoder invariant -/

/-- The encoder's cursor: the address one past the end of the current run. -/
def cursor (encoder : SnapshotRegionFilterRunLengthEncoder) : Nat :=
  encoder.run_start_address + encoder.run_length

/-- `ChainedFrom lo regions c`: the regions appear in order, each non-empty, the
first starting at or after `lo`, each next one starting at or after the previous
one's end, and the last one ending at or before `c`. -/
def ChainedFrom (lo : Nat) : List SnapshotRegionFilter → Nat → Prop
  | [], c => lo ≤ c
  | f :: rest, c =>
    lo ≤ f.base_address ∧ 0 < f.region_size ∧
      ChainedFrom (f.base_address + f.region_size) rest c

theorem chainedFrom_mono {lo c c' : Nat} {regions : List SnapshotRegionFilter}
    (h : ChainedFrom lo regions c) (hc : c ≤ c') : ChainedFrom lo regions c' := by
  induction regions generalizing lo with
  | nil => exact le_trans h hc
  | cons f rest ih =>
    obtain ⟨h1, h2, h3⟩ := h
    exact ⟨h1, h2, ih h3⟩

theorem chainedFrom_le {lo c : Nat} {regions : List SnapshotRegionFilter}
    (h : ChainedFrom lo regions c) : lo ≤ c := by
  induction regions generalizing lo with
  | nil => exact h
  | cons f rest ih =>
    obtain ⟨h1, _, h3⟩ := h
    exact le_trans h1 (le_trans (Nat.le_add_right _ _) (ih h3))

theorem chainedFrom_append {lo m b s : Nat} {regions : List SnapshotRegionFilter}
    (h : ChainedFrom lo regions m) (hm : m ≤ b) (hs : 0 < s) :
    ChainedFrom lo (regions ++ [⟨b, s⟩]) (b + s) := by
  induction regions generalizing lo with
  | nil => exact ⟨le_trans h hm, hs, Nat.le_refl _⟩
  | cons f rest ih =>
    obtain ⟨h1, h2, h3⟩ := h
    exact ⟨h1, h2, ih h3⟩

theorem chainedFrom_mem {lo c : Nat} {regions : List SnapshotRegionFilter}
    (h : ChainedFrom lo regions c) :
    ∀ f ∈ regions, lo ≤ f.base_address ∧ 0 < f.region_size ∧
      f.base_address + f.region_size ≤ c := by
  induction regions generalizing lo with
  | nil => intro f hf; cases hf
  | cons g rest ih =>
    obtain ⟨h1, h2, h3⟩ := h
    intro f hf
    rcases List.mem_cons.mp hf with rfl | hf
    · exact ⟨h1, h2, chainedFrom_le h3⟩
    · obtain ⟨m1, m2, m3⟩ := ih h3 f hf
      exact ⟨le_trans h1 (le_trans (Nat.le_add_right _ _) m1), m2, m3⟩

theorem chainedFrom_pairwise {lo c : Nat} {regions : List SnapshotRegionFilter}
    (h : ChainedFrom lo regions c) :
    regions.Pairwise (fun x y =>
      x.base_address + x.region_size ≤ y.base_address ∧ x.base_address < y.base_address) := by
  induction regions generalizing lo with
  | nil => exact List.Pairwise.nil
  | cons f rest ih =>
    obtain ⟨h1, h2, h3⟩ := h
    refine List.Pairwise.cons ?_ (ih h3)
    intro y hy
    have := (chainedFrom_mem h3 y hy).1
    exact ⟨this, lt_of_lt_of_le (Nat.lt_add_of_pos_right h2) this⟩

theorem chainedFrom_sum_sizes {lo c : Nat} {regions : List SnapshotRegionFilter}
    (h : ChainedFrom lo regions c) :
    lo + (regions.map SnapshotRegionFilter.region_size).sum ≤ c := by
  induction regions generalizing lo with
  | nil => simpa using h
  | cons f rest ih =>
    obtain ⟨h1, _, h3⟩ := h
    have := ih h3
    simp only [List.map_cons, List.sum_cons]
    omega

/-- The encoder invariant: the emitted regions chain from the filter base up to the
start of the current run. -/
def EncoderInv (base : Nat) (encoder : SnapshotRegionFilterRunLengthEncoder) : Prop :=
  ChainedFrom base encoder.result_regions encoder.run_start_address

theorem encoderInv_new (base : Nat) :
    EncoderInv base (SnapshotRegionFilterRunLengthEncoder.new base) :=
  Nat.le_refl base

theorem encode_range_inv {base : Nat} {encoder : SnapshotRegionFilterRunLengthEncoder}
    (h : EncoderInv base encoder) (stride : Nat) :
    EncoderInv base (encoder.encode_range stride) ∧
      cursor (encoder.encode_range stride) = cursor encoder + stride := by
  refine ⟨h, ?_⟩
  simp only [cursor, SnapshotRegionFilterRunLengthEncoder.encode_range]
  omega

theorem finalize_current_encode_inv {base : Nat}
    {encoder : SnapshotRegionFilterRunLengthEncoder}
    (h : EncoderInv base encoder) (stride : Nat) :
    EncoderInv base (encoder.finalize_current_encode stride) ∧
      cursor (encoder.finalize_current_encode stride) = cursor encoder + stride := by
  unfold SnapshotRegionFilterRunLengthEncoder.finalize_current_encode
  by_cases hrl : 0 < encoder.run_length
  · simp only [hrl, if_true]
    constructor
    · exact chainedFrom_mono
        (chainedFrom_append h (Nat.le_refl _) hrl) (Nat.le_add_right _ _)
    · simp only [cursor]; omega
  · simp only [hrl, if_false]
    constructor
    · exact chainedFrom_mono h (Nat.le_add_right _ _)
    · simp only [cursor]; omega

/-- Folding encoder steps that each advance the cursor by a fixed amount preserves
the invariant and advances the cursor by the total. -/
theorem foldl_encoder_inv {α : Type} {base : Nat}
    (g : SnapshotRegionFilterRunLengthEncoder → α → SnapshotRegionFilterRunLengthEncoder)
    (stride_of : α → Nat)
    (hg : ∀ encoder a, EncoderInv base encoder →
      EncoderInv base (g encoder a) ∧ cursor (g encoder a) = cursor encoder + stride_of a)
    (L : List α) (encoder : SnapshotRegionFilterRunLengthEncoder)
    (h : EncoderInv base encoder) :
    EncoderInv base (L.foldl g encoder) ∧
      cursor (L.foldl g encoder) = cursor encoder + (L.map stride_of).sum := by
  induction L generalizing encoder with
  | nil => exact ⟨h, by simp⟩
  | cons a rest ih =>
    obtain ⟨h1, h2⟩ := hg encoder a h
    obtain ⟨h3, h4⟩ := ih (g encoder a) h1
    refine ⟨h3, ?_⟩
    simp only [List.foldl_cons, List.map_cons, List.sum_cons] at h4 ⊢
    omega

theorem length_rangeStep (start stop step : Nat) (hstep : 0 < step) :
    (rangeStep start stop step).length = (stop - start + step - 1) / step := by
  simp [rangeStep, Nat.pos_iff_ne_zero.mp hstep]

theorem sum_map_const_nat {α : Type} (L : List α) (c : Nat) :
    (L.map fun _ => c).sum = L.length * c := by
  induction L with
  | nil => simp
  | cons a rest ih => simp [ih, Nat.succ_mul]; omega

theorem encode_remainder_results_inv {base : Nat}
    {encoder : SnapshotRegionFilterRunLengthEncoder}
    (N : Nat) (compare_result : Nat → Nat) (memory_alignment remainder_bytes : Nat)
    (h : EncoderInv base encoder) (hA : 0 < memory_alignment)
    (hdvd : memory_alignment ∣ remainder_bytes) (hle : remainder_bytes ≤ N) :
    EncoderInv base
      (encode_remainder_results N compare_result encoder memory_alignment remainder_bytes) ∧
      cursor (encode_remainder_results N compare_result encoder memory_alignment
        remainder_bytes) = cursor encoder + remainder_bytes := by
  unfold encode_remainder_results
  obtain ⟨hinv, hcur⟩ := foldl_encoder_inv
    (fun encoder byte_index =>
      if compare_result byte_index ≠ 0 then
        encoder.encode_range memory_alignment
      else
        encoder.finalize_current_encode memory_alignment)
    (fun _ => memory_alignment)
    (fun encoder a h => by
      by_cases hc : compare_result a ≠ 0
      · simpa [hc] using encode_range_inv h memory_alignment
      · simpa [hc] using finalize_current_encode_inv h memory_alignment)
    (rangeStep (N - remainder_bytes) N memory_alignment) encoder h
  refine ⟨hinv, ?_⟩
  rw [hcur, sum_map_const_nat]
  have hlen : (rangeStep (N - remainder_bytes) N memory_alignment).length =
      remainder_bytes / memory_alignment := by
    rw [length_rangeStep _ _ _ hA]
    obtain ⟨q, rfl⟩ := hdvd
    have h1 : N - (N - memory_alignment * q) + memory_alignment - 1 =
        memory_alignment * q + (memory_alignment - 1) := by omega
    rw [h1, Nat.mul_add_div hA, Nat.div_eq_of_lt (by omega),
      Nat.mul_div_cancel_left _ hA]
    omega
  rw [hlen, Nat.div_mul_cancel hdvd]

theorem plan_vector_scan_iterations (N region_size data_type_size memory_alignment : Nat) :
    (plan_vector_scan N region_size data_type_size memory_alignment).vectorizable_iterations =
      region_size / N := rfl

theorem plan_vector_scan_remainder (N region_size data_type_size memory_alignment : Nat) :
    (plan_vector_scan N region_size data_type_size memory_alignment).remainder_bytes =
      region_size / memory_alignment * memory_alignment - region_size / N * N := rfl

theorem plan_vector_scan_element_count (N region_size data_type_size memory_alignment : Nat) :
    (plan_vector_scan N region_size data_type_size memory_alignment).element_count =
      region_size / memory_alignment := rfl

theorem encode_results_inv {base : Nat} {encoder : SnapshotRegionFilterRunLengthEncoder}
    (N : Nat) (compare_result : Nat → Nat) (memory_alignment : Nat)
    (h : EncoderInv base encoder) (hA : 0 < memory_alignment)
    (hdvd : memory_alignment ∣ N) :
    EncoderInv base (encode_results N compare_result encoder memory_alignment) ∧
      cursor (encode_results N compare_result encoder memory_alignment) =
        cursor encoder + N := by
  unfold encode_results
  by_cases h1 : (List.range N).all (fun i => compare_result i == 0xFF)
  · simpa [h1] using encode_range_inv h N
  · by_cases h2 : (List.range N).all (fun i => compare_result i == 0x00)
    · simpa [h1, h2] using finalize_current_encode_inv h N
    · simpa [h1, h2] using
        encode_remainder_results_inv N compare_result memory_alignment N h hA hdvd
          (Nat.le_refl N)

/-- Multiples of a divisor of `N` that fit under `S`, rounded down: the vectorized
byte count never exceeds the full-element byte count. -/
theorem div_mul_le_div_mul {A N S : Nat} (hA : 0 < A) (hdvd : A ∣ N) :
    S / N * N ≤ S / A * A := by
  have h1 : A ∣ S / N * N := Dvd.dvd.mul_left hdvd _
  obtain ⟨m, hm⟩ := h1
  have h2 : S / N * N ≤ S := Nat.div_mul_le_self S N
  have h4 : m * A ≤ S := by rw [Nat.mul_comm]; omega
  have h3 : m ≤ S / A := (Nat.le_div_iff_mul_le hA).mpr h4
  calc S / N * N = A * m := hm
    _ ≤ A * (S / A) := Nat.mul_le_mul_left A h3
    _ = S / A * A := Nat.mul_comm _ _

/-- Arithmetic facts about the vectorization plan used by the aligned scanner. -/
theorem plan_vector_scan_facts (N region_size data_type_size memory_alignment : Nat)
    (hA : 0 < memory_alignment) (hdvd : memory_alignment ∣ N) (hN : 0 < N) :
    (plan_vector_scan N region_size data_type_size memory_alignment).vectorizable_iterations * N +
        (plan_vector_scan N region_size data_type_size memory_alignment).remainder_bytes =
      region_size / memory_alignment * memory_alignment ∧
    memory_alignment ∣
        (plan_vector_scan N region_size data_type_size memory_alignment).remainder_bytes ∧
    (plan_vector_scan N region_size data_type_size memory_alignment).remainder_bytes ≤ N := by
  have hle : region_size / N * N ≤ region_size / memory_alignment * memory_alignment :=
    div_mul_le_div_mul hA hdvd
  have hmod : region_size % N + region_size / N * N = region_size := Nat.mod_add_div' _ _
  have hmodlt : region_size % N < N := Nat.mod_lt _ hN
  have husedle : region_size / memory_alignment * memory_alignment ≤ region_size :=
    Nat.div_mul_le_self _ _
  rw [plan_vector_scan_iterations, plan_vector_scan_remainder]
  refine ⟨by omega, ?_, by omega⟩
  exact Nat.dvd_sub' (Dvd.dvd.mul_left dvd_rfl _) (Dvd.dvd.mul_left hdvd _)

theorem vector_scan_pass_inv {base : Nat} {encoder : SnapshotRegionFilterRunLengthEncoder}
    (N region_size data_type_size memory_alignment : Nat) (compare_func : Nat → Nat → Nat)
    (h : EncoderInv base encoder) (hA : 0 < memory_alignment)
    (hdvd : memory_alignment ∣ N) (hN : 0 < N) :
    EncoderInv base
      (vector_scan_pass N (plan_vector_scan N region_size data_type_size memory_alignment)
        memory_alignment compare_func encoder) ∧
      cursor (vector_scan_pass N (plan_vector_scan N region_size data_type_size memory_alignment)
        memory_alignment compare_func encoder) =
        cursor encoder + region_size / memory_alignment * memory_alignment := by
  obtain ⟨htotal, hrdvd, hrle⟩ :=
    plan_vector_scan_facts N region_size data_type_size memory_alignment hA hdvd hN
  set plan := plan_vector_scan N region_size data_type_size memory_alignment with hplan
  unfold vector_scan_pass
  obtain ⟨hinv1, hcur1⟩ := foldl_encoder_inv
    (fun encoder index =>
      encode_results N (compare_func (index * plan.vector_size_in_bytes)) encoder
        memory_alignment)
    (fun _ => N)
    (fun encoder a h => encode_results_inv N _ memory_alignment h hA hdvd)
    (List.range plan.vectorizable_iterations) encoder h
  rw [sum_map_const_nat, List.length_range] at hcur1
  by_cases hrem : 0 < plan.remainder_bytes
  · simp only [hrem, if_true]
    obtain ⟨hinv2, hcur2⟩ := encode_remainder_results_inv N
      (compare_func plan.remainder_ptr_offset) memory_alignment plan.remainder_bytes
      hinv1 hA hrdvd hrle
    exact ⟨hinv2, by omega⟩
  · simp only [hrem, if_false]
    have : plan.remainder_bytes = 0 := by omega
    exact ⟨hinv1, by omega⟩

theorem scalar_scan_pass_inv {base : Nat} {encoder : SnapshotRegionFilterRunLengthEncoder}
    (element_count memory_alignment : Nat) (compare_func : Nat → Bool)
    (h : EncoderInv base encoder) :
    EncoderInv base (scalar_scan_pass element_count memory_alignment compare_func encoder) ∧
      cursor (scalar_scan_pass element_count memory_alignment compare_func encoder) =
        cursor encoder + element_count * memory_alignment := by
  unfold scalar_scan_pass
  obtain ⟨hinv, hcur⟩ := foldl_encoder_inv
    (fun encoder index =>
      if compare_func (index * memory_alignment) then
        encoder.encode_range memory_alignment
      else
        encoder.finalize_current_encode memory_alignment)
    (fun _ => memory_alignment)
    (fun encoder a h => by
      by_cases hc : compare_func (a * memory_alignment)
      · simpa [hc] using encode_range_inv h memory_alignment
      · simpa [hc] using finalize_current_encode_inv h memory_alignment)
    (List.range element_count) encoder h
  rw [sum_map_const_nat, List.length_range] at hcur
  exact ⟨hinv, hcur⟩

/-- After `scan_region`, the emitted filters chain from the filter base and end at or
before `base + (S / A) * A` (the full-element span). -/
theorem scan_region_chained
    (N base_address region_size data_type_size memory_alignment_size : Nat)
    (scan_function_vector : Option (Nat → Nat → Nat))
    (scan_function_scalar : Option (Nat → Bool))
    (hA : 0 < memory_alignment_size)
    (hvec : memory_alignment_size ∣ N ∧ 0 < N ∨ region_size < N) :
    ∃ c, ChainedFrom base_address
      (scan_region N base_address region_size data_type_size memory_alignment_size
        scan_function_vector scan_function_scalar) c ∧
      c ≤ base_address + region_size / memory_alignment_size * memory_alignment_size := by
  have hstart : EncoderInv base_address (SnapshotRegionFilterRunLengthEncoder.new base_address) :=
    encoderInv_new base_address
  have hcur0 : cursor (SnapshotRegionFilterRunLengthEncoder.new base_address) = base_address := by
    simp [cursor, SnapshotRegionFilterRunLengthEncoder.new]
  -- Finishing step: invariant plus a cursor bound delivers the chain for the harvest.
  have main : ∀ e2 : SnapshotRegionFilterRunLengthEncoder,
      EncoderInv base_address e2 →
      cursor e2 ≤ base_address + region_size / memory_alignment_size * memory_alignment_size →
      ∃ c, ChainedFrom base_address (e2.finalize_current_encode 0).take_result_regions c ∧
        c ≤ base_address + region_size / memory_alignment_size * memory_alignment_size := by
    intro e2 hinv hcle
    obtain ⟨hinv3, hcur3⟩ := finalize_current_encode_inv hinv 0
    refine ⟨(e2.finalize_current_encode 0).run_start_address, hinv3, ?_⟩
    have : (e2.finalize_current_encode 0).run_start_address ≤
        cursor (e2.finalize_current_encode 0) := Nat.le_add_right _ _
    omega
  -- Scalar-fallback bound, shared by three branches.
  have scalar_case : ∀ scalar_func : Nat → Bool,
      ∃ c, ChainedFrom base_address
        ((scalar_scan_pass
            (plan_vector_scan N region_size data_type_size
              memory_alignment_size).element_count
            memory_alignment_size scalar_func
            (SnapshotRegionFilterRunLengthEncoder.new
              base_address)).finalize_current_encode 0).take_result_regions c ∧
        c ≤ base_address + region_size / memory_alignment_size * memory_alignment_size := by
    intro scalar_func
    obtain ⟨hinv1, hcur1⟩ := scalar_scan_pass_inv
      (plan_vector_scan N region_size data_type_size memory_alignment_size).element_count
      memory_alignment_size scalar_func hstart
    rw [plan_vector_scan_element_count] at hinv1 hcur1
    obtain ⟨c, hc1, hc2⟩ := main
      (scalar_scan_pass (region_size / memory_alignment_size) memory_alignment_size
        scalar_func (SnapshotRegionFilterRunLengthEncoder.new base_address))
      hinv1 (by omega)
    exact ⟨c, hc1, hc2⟩
  have empty_case :
      ∃ c, ChainedFrom base_address
        ((SnapshotRegionFilterRunLengthEncoder.new
            base_address).finalize_current_encode 0).take_result_regions c ∧
        c ≤ base_address + region_size / memory_alignment_size * memory_alignment_size :=
    main _ hstart (by omega)
  unfold scan_region
  by_cases hiter : 0 < (plan_vector_scan N region_size data_type_size
      memory_alignment_size).vectorizable_iterations
  · cases scan_function_vector with
    | some compare_func =>
      simp only [hiter, if_true]
      rcases hvec with ⟨hdvd, hN⟩ | hsmall
      · obtain ⟨hinv1, hcur1⟩ := vector_scan_pass_inv N region_size data_type_size
          memory_alignment_size compare_func hstart hA hdvd hN
        obtain ⟨c, hc1, hc2⟩ := main _ hinv1 (by omega)
        exact ⟨c, hc1, hc2⟩
      · rw [plan_vector_scan_iterations, Nat.div_eq_of_lt hsmall] at hiter
        exact absurd hiter (by omega)
    | none =>
      simp only [hiter, if_true]
      cases scan_function_scalar with
      | some scalar_func =>
        obtain ⟨c, hc1, hc2⟩ := scalar_case scalar_func
        exact ⟨c, hc1, hc2⟩
      | none =>
        obtain ⟨c, hc1, hc2⟩ := empty_case
        exact ⟨c, hc1, hc2⟩
  · simp only [hiter, if_false]
    cases scan_function_scalar with
    | some scalar_func =>
      obtain ⟨c, hc1, hc2⟩ := scalar_case scalar_func
      exact ⟨c, hc1, hc2⟩
    | none =>
      obtain ⟨c, hc1, hc2⟩ := empty_case
      exact ⟨c, hc1, hc2⟩

/-! ### Concrete comparators for the literal scan scenarios -/

/-- Little-endian integer value of `count` bytes of memory starting at `offset`. -/
def read_le_value (mem : Nat → Nat) (offset count : Nat) : Nat :=
  (List.range count).foldr (fun i acc => acc * 256 + mem (offset + i)) 0

/-- The u64 immediate-equal SIMD comparison: for a vector loaded at `load_offset`,
each lane's mask byte is 0xFF when the 8-byte element containing that lane equals the
immediate, else 0x00 (`memory` maps a byte offset inside the filter to its value). -/
def equal_u64_vector_compare (memory : Nat → Nat) (immediate : Nat)
    (load_offset lane : Nat) : Nat :=
  if read_le_value memory (load_offset + lane / 8 * 8) 8 = immediate then 0xFF else 0x00

/-- The u64 immediate-equal scalar comparison at an element's byte offset. -/
def equal_u64_scalar_compare (memory : Nat → Nat) (immediate : Nat) (offset : Nat) : Bool :=
  read_le_value memory offset 8 == immediate

/-- A region whose bytes are all zero. -/
def all_zero_memory : Nat → Nat := fun _ => 0

/-- C1: for every region, source filter and scan plan, after a successful scan pass of
the aligned vector scanner, every emitted filter lies inside its source filter, and
the emitted filters are pairwise disjoint and ordered by increasing base address.
(The comparison functions are universally quantified, covering every comparator and
every memory contents; the alignment divides the lane count, as in the source where
the alignment is 1, 2, 4 or 8 and the lane count 16, 32 or 64.) -/
theorem claim_C1_aligned_scan_filters_within_disjoint_ordered
    (N base_address region_size data_type_size memory_alignment_size : Nat)
    (scan_function_vector : Option (Nat → Nat → Nat))
    (scan_function_scalar : Option (Nat → Bool))
    (hA : 0 < memory_alignment_size) (hdvd : memory_alignment_size ∣ N) (hN : 0 < N) :
    (∀ f ∈ scan_region N base_address region_size data_type_size memory_alignment_size
        scan_function_vector scan_function_scalar,
      base_address ≤ f.base_address ∧
        f.base_address + f.region_size ≤ base_address + region_size) ∧
    (scan_region N base_address region_size data_type_size memory_alignment_size
        scan_function_vector scan_function_scalar).Pairwise
      (fun x y => x.base_address + x.region_size ≤ y.base_address ∧
        x.base_address < y.base_address) := by
  obtain ⟨c, hchain, hc⟩ := scan_region_chained N base_address region_size data_type_size
    memory_alignment_size scan_function_vector scan_function_scalar hA (Or.inl ⟨hdvd, hN⟩)
  have husedle : region_size / memory_alignment_size * memory_alignment_size ≤ region_size :=
    Nat.div_mul_le_self _ _
  constructor
  · intro f hf
    obtain ⟨m1, _, m3⟩ := chainedFrom_mem hchain f hf
    exact ⟨m1, by omega⟩
  · exact chainedFrom_pairwise hchain

theorem claim_C1_witness :
    ((0 < 4 ∧ (4 : Nat) ∣ 16 ∧ 0 < 16) ∧
      (∀ f ∈ scan_region 16 4096 12 4 4 (some fun _ _ => 0xFF) none,
        4096 ≤ f.base_address ∧ f.base_address + f.region_size ≤ 4096 + 12) ∧
      (scan_region 16 4096 12 4 4 (some fun _ _ => 0xFF) none).Pairwise
        (fun x y => x.base_address + x.region_size ≤ y.base_address ∧
          x.base_address < y.base_address)) :=
  ⟨⟨by decide, by decide, by decide⟩,
    claim_C1_aligned_scan_filters_within_disjoint_ordered 16 4096 12 4 4
      (some fun _ _ => 0xFF) none (by decide) (by decide) (by decide)⟩

/-- C2: for the aligned vector scanner with lane count `N`, for every source filter of
size `S < N`, every unit size (equal to the alignment, as the aligned scanner
requires) and every comparator, the total byte size of the emitted filters never
exceeds `(S / unit_size) * alignment` and no emitted filter contains any byte at or
past `base + (S / unit_size) * alignment`; and an equal-zero u64 scan over a 20-byte
all-zero region with alignment 8 and 16-byte lanes emits exactly the single filter
`(base, 16)`. -/
theorem claim_C2_aligned_scan_small_region_bound_and_trailing_bytes
    (N base_address region_size data_type_size memory_alignment_size : Nat)
    (scan_function_vector : Option (Nat → Nat → Nat))
    (scan_function_scalar : Option (Nat → Bool))
    (hA : 0 < memory_alignment_size) (hU : data_type_size = memory_alignment_size)
    (hsmall : region_size < N) :
    (((scan_region N base_address region_size data_type_size memory_alignment_size
          scan_function_vector scan_function_scalar).map
        SnapshotRegionFilter.region_size).sum ≤
        region_size / data_type_size * memory_alignment_size ∧
      ∀ f ∈ scan_region N base_address region_size data_type_size memory_alignment_size
          scan_function_vector scan_function_scalar,
        f.base_address + f.region_size ≤
          base_address + region_size / data_type_size * memory_alignment_size) ∧
    ∀ b, scan_region 16 b 20 8 8 (some (equal_u64_vector_compare all_zero_memory 0))
        (some (equal_u64_scalar_compare all_zero_memory 0)) = [⟨b, 16⟩] := by
  subst hU
  obtain ⟨c, hchain, hc⟩ := scan_region_chained N base_address region_size data_type_size
    data_type_size scan_function_vector scan_function_scalar hA (Or.inr hsmall)
  refine ⟨⟨?_, ?_⟩, fun b => rfl⟩
  · have := chainedFrom_sum_sizes hchain
    omega
  · intro f hf
    have := (chainedFrom_mem hchain f hf).2.2
    omega

theorem claim_C2_witness :
    ((0 < 4 ∧ (4 : Nat) = 4 ∧ 12 < 16) ∧
      (((scan_region 16 4096 12 4 4 (some fun _ _ => 0xFF) none).map
          SnapshotRegionFilter.region_size).sum ≤ 12 / 4 * 4 ∧
        ∀ f ∈ scan_region 16 4096 12 4 4 (some fun _ _ => 0xFF) none,
          f.base_address + f.region_size ≤ 4096 + 12 / 4 * 4) ∧
      ∀ b, scan_region 16 b 20 8 8 (some (equal_u64_vector_compare all_zero_memory 0))
          (some (equal_u64_scalar_compare all_zero_memory 0)) = [⟨b, 16⟩]) :=
  ⟨⟨by decide, by decide, by decide⟩,
    claim_C2_aligned_scan_small_region_bound_and_trailing_bytes 16 4096 12 4 4
      (some fun _ _ => 0xFF) none (by decide) rfl (by decide)⟩

/-! ### Snapshot region memory reading (`snapshot_region_memory_reader.rs`) -/

/-- The snapshot-region state touched by `read_all_memory` /
`read_all_memory_chunked` (`SnapshotRegion` in the source; bytes are `Nat` values
below 256). -/
structure SnapshotRegion where
  base_address : Nat
  region_size : Nat
  current_values : List Nat
  previous_values : List Nat
  page_boundaries : List Nat
  page_boundary_tombstones : List Nat
  deriving Repr, DecidableEq

/-- The bytes `MemoryReader::read_bytes` deposits into a buffer of `length` bytes at
`address` on a successful read: the target process's memory `mem`, byte by byte. -/
def read_fill (mem : Nat → Nat) (address length : Nat) : List Nat :=
  (List.range length).map (fun i => mem (address + i))

/-- The `(address, length)` slices `read_all_memory` splits a merged region's buffer
into: one slice per page boundary plus the final slice after the last boundary, the
latter pushed only when non-empty. `remaining_len` threads the un-consumed buffer
length (Rust's `split_at_mut`; a boundary outside the buffer would make the Rust
code panic, so the model caps each slice at the remaining length, which is
behaviorally identical whenever the data-model invariants of §3 hold). -/
def split_read_ranges (next_range_start_address remaining_len : Nat) :
    List Nat → List (Nat × Nat)
  | [] => if remaining_len ≠ 0 then [(next_range_start_address, remaining_len)] else []
  | next_boundary_address :: rest =>
    let range_size := next_boundary_address - next_range_start_address
    (next_range_start_address, min range_size remaining_len) ::
      split_read_ranges next_boundary_address (remaining_len - range_size) rest

/-- Fill a buffer along consecutive slices: each successfully read slice receives the
target memory's bytes, a failed slice keeps the buffer's old bytes (the Rust reader
leaves the destination unspecified on failure; no claim depends on failed bytes and
the model keeps them unchanged). -/
def fill_slices (read_ok : Nat → Nat → Bool) (mem : Nat → Nat) :
    List (Nat × Nat) → List Nat → List Nat
  | [], buffer => buffer
  | (address, length) :: rest, buffer =>
    (if read_ok address length then read_fill mem address length
     else buffer.take length) ++ fill_slices read_ok mem rest (buffer.drop length)

/-- `SnapshotRegionMemoryReader::read_all_memory`. `read_ok address length` is the
outcome of `MemoryReader::read_bytes` for that slice, `mem` the target memory.
Returns the `Result` paired with the mutated region. -/
def read_all_memory (read_ok : Nat → Nat → Bool) (mem : Nat → Nat)
    (r : SnapshotRegion) : Except String Unit × SnapshotRegion :=
  let region_size := r.region_size
  -- Move current_values to be the previous_values (std::mem::swap).
  let current_values := r.previous_values
  let previous_values := r.current_values
  -- Create current values vector if none exist.
  let current_values :=
    if current_values.isEmpty ∧ 0 < region_size then List.replicate region_size 0
    else current_values
  if r.page_boundaries.isEmpty then
    -- Standalone memory page: read the region as one block.
    let success := read_ok r.base_address current_values.length
    let current_values :=
      if success then read_fill mem r.base_address current_values.length
      else current_values
    (if success then Except.ok () else Except.error "Failed to read memory region",
      { r with current_values := current_values, previous_values := previous_values })
  else
    -- Merged OS regions: separate the read calls along the page boundaries.
    let read_ranges := split_read_ranges r.base_address current_values.length r.page_boundaries
    let total_ranges := read_ranges.length
    let read_failures :=
      (read_ranges.filter (fun s => ! read_ok s.1 s.2)).map (fun s => s.1)
    let current_values := fill_slices read_ok mem read_ranges current_values
    (if 0 < total_ranges ∧ total_ranges ≤ read_failures.length then
        Except.error "Failed to read memory region"
      else Except.ok (),
      { r with current_values := current_values, previous_values := previous_values
               page_boundary_tombstones := r.page_boundary_tombstones ++ read_failures })

/-- The read slices of `read_all_memory` as the claim speaks about them: the whole
region when there are no page boundaries, else one slice per page-boundary segment. -/
def read_slices (r : SnapshotRegion) : List (Nat × Nat) :=
  if r.page_boundaries.isEmpty then [(r.base_address, r.region_size)]
  else split_read_ranges r.base_address r.region_size r.page_boundaries

/-- The clamped chunk size of `read_all_memory_chunked`:
`scan_buffer_kb * 1024` clamped to `[1 KiB, 16 MiB]`. -/
def clamped_chunk_size (scan_buffer_kb : Nat) : Nat :=
  let chunk_size := scan_buffer_kb * 1024
  if chunk_size < 1024 then 1024
  else if chunk_size > 16 * 1024 * 1024 then 16 * 1024 * 1024
  else chunk_size

/-- The `(address, length)` chunks `chunks_mut(chunk_size)` yields over a slice of
`len` bytes at `address` (empty for a zero chunk size, where Rust would panic; the
clamp keeps it at least 1 KiB in every actual call). -/
def chunk_ranges (address chunk_size len : Nat) : List (Nat × Nat) :=
  if h : chunk_size = 0 then []
  else if len = 0 then []
  else if len ≤ chunk_size then [(address, len)]
  else (address, chunk_size) :: chunk_ranges (address + chunk_size) chunk_size (len - chunk_size)
  termination_by len
  decreasing_by omega

/-- The chunked `(address, length)` ranges of the merged-region branch of
`read_all_memory_chunked`: each boundary slice is chunked, then the final slice. -/
def chunked_read_ranges (next_address remaining_len chunk_size : Nat) :
    List Nat → List (Nat × Nat)
  | [] => chunk_ranges next_address chunk_size remaining_len
  | boundary :: rest =>
    let range_size := boundary - next_address
    chunk_ranges next_address chunk_size (min range_size remaining_len) ++
      chunked_read_ranges boundary (remaining_len - range_size) chunk_size rest

/-- `SnapshotRegionMemoryReader::read_all_memory_chunked`. Identical contract to
`read_all_memory` but segments are further split into buffer-sized chunks
(`scan_buffer_kb` comes from the scan settings). -/
def read_all_memory_chunked (scan_buffer_kb : Nat) (read_ok : Nat → Nat → Bool)
    (mem : Nat → Nat) (r : SnapshotRegion) : Except String Unit × SnapshotRegion :=
  let chunk_size := clamped_chunk_size scan_buffer_kb
  let region_size := r.region_size
  let base_address := r.base_address
  -- Move current_values to be the previous_values (std::mem::swap).
  let current_values := r.previous_values
  let previous_values := r.current_values
  -- Create current values vector if none exist.
  let current_values :=
    if current_values.isEmpty ∧ 0 < region_size then List.replicate region_size 0
    else current_values
  if r.page_boundaries.isEmpty then
    -- Standalone memory page: read in chunks to avoid large single reads.
    let total_chunks := (current_values.length + chunk_size - 1) / chunk_size
    let chunks := chunk_ranges base_address chunk_size current_values.length
    let failures := (chunks.filter (fun s => ! read_ok s.1 s.2)).map (fun s => s.1)
    let current_values := fill_slices read_ok mem chunks current_values
    (if 0 < total_chunks ∧ total_chunks ≤ failures.length then
        Except.error "Failed to read memory region"
      else Except.ok (),
      { r with current_values := current_values, previous_values := previous_values
               page_boundary_tombstones := r.page_boundary_tombstones ++ failures })
  else
    -- Merged OS regions: chunk within each page-boundary slice.
    let read_ranges :=
      chunked_read_ranges base_address current_values.length chunk_size r.page_boundaries
    let total_ranges := read_ranges.length
    let read_failures :=
      (read_ranges.filter (fun s => ! read_ok s.1 s.2)).map (fun s => s.1)
    let current_values := fill_slices read_ok mem read_ranges current_values
    (if 0 < total_ranges ∧ total_ranges ≤ read_failures.length then
        Except.error "Failed to read memory region"
      else Except.ok (),
      { r with current_values := current_values, previous_values := previous_values
               page_boundary_tombstones := r.page_boundary_tombstones ++ read_failures })

/-- The read chunks of `read_all_memory_chunked` as the claim speaks about them. -/
def read_chunk_slices (scan_buffer_kb : Nat) (r : SnapshotRegion) : List (Nat × Nat) :=
  if r.page_boundaries.isEmpty then
    chunk_ranges r.base_address (clamped_chunk_size scan_buffer_kb) r.region_size
  else
    chunked_read_ranges r.base_address r.region_size (clamped_chunk_size scan_buffer_kb)
      r.page_boundaries

/-! ### Lemmas for the read-all-memory contract -/

/-- After the swap-and-allocate step, the working buffer has exactly the region's
size, given the data-model invariant on `previous_values`. -/
theorem swapped_buffer_length (r : SnapshotRegion) (hsize : 0 < r.region_size)
    (hprev : r.previous_values.length = 0 ∨ r.previous_values.length = r.region_size) :
    (if r.previous_values.isEmpty ∧ 0 < r.region_size then
        List.replicate r.region_size 0
      else r.previous_values).length = r.region_size := by
  rcases hprev with h | h
  · have he : r.previous_values.isEmpty := by
      simp [List.isEmpty_iff, List.length_eq_zero.mp h]
    simp [he, hsize]
  · by_cases he : r.previous_values.isEmpty
    · simp [he, hsize]
    · simp [he, h]

theorem isOk_false_ite_cond (c : Prop) [Decidable c] :
    ((if c then Except.error "Failed to read memory region" else Except.ok ()) :
        Except String Unit).isOk = false ↔ c := by
  by_cases h : c <;> simp [h, Except.isOk, Except.toBool]

theorem isOk_false_ite_success (success : Bool) :
    ((if success then Except.ok () else Except.error "Failed to read memory region") :
        Except String Unit).isOk = false ↔ success = false := by
  cases success <;> simp [Except.isOk, Except.toBool]

/-- The error condition `failure_count ≥ total_ranges` over a non-empty slice list
says exactly that every slice failed. -/
theorem all_failed_iff (read_ok : Nat → Nat → Bool) (L : List (Nat × Nat)) (hL : L ≠ []) :
    (0 < L.length ∧
        L.length ≤ ((L.filter (fun s => ! read_ok s.1 s.2)).map (fun s => s.1)).length) ↔
      ∀ s ∈ L, read_ok s.1 s.2 = false := by
  rw [List.length_map, ← List.countP_eq_length_filter]
  constructor
  · rintro ⟨-, hle⟩ s hs
    have hcle : L.countP (fun s => ! read_ok s.1 s.2) ≤ L.length := List.countP_le_length _
    have hc : L.countP (fun s => ! read_ok s.1 s.2) = L.length := le_antisymm hcle hle
    have := List.countP_eq_length.mp hc s hs
    simpa using this
  · intro hall
    refine ⟨List.length_pos.mpr hL, le_of_eq ?_⟩
    refine (List.countP_eq_length.mpr ?_).symm
    intro s hs
    simpa using hall s hs

theorem chunk_ranges_length (address chunk_size len : Nat) (hc : 0 < chunk_size) :
    (chunk_ranges address chunk_size len).length = (len + chunk_size - 1) / chunk_size := by
  induction len using Nat.strong_induction_on generalizing address with
  | _ len ih =>
    have hcz : ¬ chunk_size = 0 := by omega
    rw [chunk_ranges, dif_neg hcz]
    rcases Nat.eq_zero_or_pos len with hz | hpos
    · subst hz
      rw [if_pos rfl]
      simp [Nat.div_eq_of_lt (by omega : chunk_size - 1 < chunk_size)]
    · rw [if_neg (by omega)]
      by_cases hle : len ≤ chunk_size
      · rw [if_pos hle]
        simp only [List.length_singleton]
        have h1 : 1 * chunk_size ≤ len + chunk_size - 1 := by omega
        have h2 : len + chunk_size - 1 < (1 + 1) * chunk_size := by omega
        exact (Nat.div_eq_of_lt_le h1 h2).symm
      · rw [if_neg hle]
        simp only [List.length_cons]
        rw [ih (len - chunk_size) (by omega) (address + chunk_size)]
        have h1 : len + chunk_size - 1 = (len - 1) + chunk_size := by omega
        have h2 : len - chunk_size + chunk_size - 1 = len - 1 := by omega
        rw [h1, h2, Nat.add_div_right _ hc]

theorem chunk_ranges_sum (address chunk_size len : Nat) (hc : 0 < chunk_size) :
    ((chunk_ranges address chunk_size len).map (fun s => s.2)).sum = len := by
  induction len using Nat.strong_induction_on generalizing address with
  | _ len ih =>
    have hcz : ¬ chunk_size = 0 := by omega
    rw [chunk_ranges, dif_neg hcz]
    rcases Nat.eq_zero_or_pos len with hz | hpos
    · subst hz; simp
    · rw [if_neg (by omega)]
      by_cases hle : len ≤ chunk_size
      · rw [if_pos hle]; simp
      · rw [if_neg hle]
        simp only [List.map_cons, List.sum_cons]
        rw [ih (len - chunk_size) (by omega) (address + chunk_size)]
        omega

theorem chunked_read_ranges_sum (chunk_size : Nat) (hc : 0 < chunk_size) :
    ∀ (boundaries : List Nat) (next_address remaining_len : Nat),
      ((chunked_read_ranges next_address remaining_len chunk_size boundaries).map
        (fun s => s.2)).sum = remaining_len := by
  intro boundaries
  induction boundaries with
  | nil =>
    intro a len
    simpa [chunked_read_ranges] using chunk_ranges_sum a chunk_size len hc
  | cons b rest ih =>
    intro a len
    simp only [chunked_read_ranges, List.map_append, List.sum_append,
      chunk_ranges_sum _ chunk_size _ hc, ih]
    omega

theorem ne_nil_of_sum_pos (L : List (Nat × Nat))
    (h : 0 < (L.map (fun s => s.2)).sum) : L ≠ [] := by
  intro hnil
  subst hnil
  simp at h

theorem clamped_chunk_size_pos (scan_buffer_kb : Nat) :
    0 < clamped_chunk_size scan_buffer_kb := by
  unfold clamped_chunk_size
  by_cases h1 : scan_buffer_kb * 1024 < 1024
  · simp [h1]
  · by_cases h2 : scan_buffer_kb * 1024 > 16 * 1024 * 1024
    · simp [h1, h2]
    · simp only [h1, if_false, h2]
      omega

theorem read_fill_length (mem : Nat → Nat) (address length : Nat) :
    (read_fill mem address length).length = length := by
  simp [read_fill]

theorem split_read_ranges_ne_nil (a len : Nat) (b : Nat) (rest : List Nat) :
    split_read_ranges a len (b :: rest) ≠ [] := by
  simp [split_read_ranges]

/-- C3: for every snapshot region with positive size (and buffers satisfying the
data-model length invariant) and every outcome of the per-slice reads,
`read_all_memory` and `read_all_memory_chunked` return `Err` exactly when every read
slice (or chunk) failed; if at least one slice succeeded they return `Ok`. -/
theorem claim_C3_read_err_iff_every_slice_failed
    (read_ok : Nat → Nat → Bool) (mem : Nat → Nat) (r : SnapshotRegion)
    (scan_buffer_kb : Nat) (hsize : 0 < r.region_size)
    (hprev : r.previous_values.length = 0 ∨ r.previous_values.length = r.region_size) :
    ((read_all_memory read_ok mem r).1.isOk = false ↔
      ∀ s ∈ read_slices r, read_ok s.1 s.2 = false) ∧
    ((read_all_memory_chunked scan_buffer_kb read_ok mem r).1.isOk = false ↔
      ∀ s ∈ read_chunk_slices scan_buffer_kb r, read_ok s.1 s.2 = false) := by
  have hbuf := swapped_buffer_length r hsize hprev
  have hchunk := clamped_chunk_size_pos scan_buffer_kb
  constructor
  · by_cases hpb : r.page_boundaries.isEmpty
    · simp only [read_all_memory, read_slices, hpb, if_true, hbuf]
      rw [isOk_false_ite_success]
      constructor
      · intro h s hs
        simp only [List.mem_singleton] at hs
        subst hs
        exact h
      · intro h
        exact h (r.base_address, r.region_size) (by simp)
    · simp only [read_all_memory, read_slices, hpb, Bool.false_eq_true, if_false, hbuf]
      rw [isOk_false_ite_cond]
      have hne : split_read_ranges r.base_address r.region_size r.page_boundaries ≠ [] := by
        rcases hb : r.page_boundaries with _ | ⟨b, rest⟩
        · rw [hb] at hpb; simp at hpb
        · exact split_read_ranges_ne_nil _ _ _ _
      exact all_failed_iff read_ok _ hne
  · by_cases hpb : r.page_boundaries.isEmpty
    · simp only [read_all_memory_chunked, read_chunk_slices, hpb, if_true, hbuf]
      rw [isOk_false_ite_cond]
      rw [← chunk_ranges_length r.base_address _ r.region_size hchunk]
      have hne : chunk_ranges r.base_address (clamped_chunk_size scan_buffer_kb)
          r.region_size ≠ [] := by
        apply ne_nil_of_sum_pos
        rw [chunk_ranges_sum _ _ _ hchunk]
        exact hsize
      exact all_failed_iff read_ok _ hne
    · simp only [read_all_memory_chunked, read_chunk_slices, hpb, Bool.false_eq_true,
        if_false, hbuf]
      rw [isOk_false_ite_cond]
      have hne : chunked_read_ranges r.base_address r.region_size
          (clamped_chunk_size scan_buffer_kb) r.page_boundaries ≠ [] := by
        apply ne_nil_of_sum_pos
        rw [chunked_read_ranges_sum _ hchunk]
        exact hsize
      exact all_failed_iff read_ok _ hne

theorem claim_C3_witness :
    (0 < 8 ∧ ((0 : Nat) = 0 ∨ (0 : Nat) = 8)) ∧
    (((read_all_memory (fun _ _ => false) (fun _ => 7)
          ⟨4096, 8, [], [], [4100], []⟩).1.isOk = false ↔
        ∀ s ∈ read_slices ⟨4096, 8, [], [], [4100], []⟩,
          (fun _ _ => false : Nat → Nat → Bool) s.1 s.2 = false) ∧
      ((read_all_memory_chunked 2048 (fun _ _ => false) (fun _ => 7)
          ⟨4096, 8, [], [], [4100], []⟩).1.isOk = false ↔
        ∀ s ∈ read_chunk_slices 2048 ⟨4096, 8, [], [], [4100], []⟩,
          (fun _ _ => false : Nat → Nat → Bool) s.1 s.2 = false)) :=
  ⟨⟨by decide, by decide⟩,
    claim_C3_read_err_iff_every_slice_failed (fun _ _ => false) (fun _ => 7)
      ⟨4096, 8, [], [], [4100], []⟩ 2048 (by decide) (by decide)⟩

/-- C8: for a snapshot region without page boundaries, positive size and a
well-shaped `previous_values` buffer, a successful `read_all_memory` leaves
`previous_values` equal to the old `current_values` and `current_values` equal to the
bytes read from the target, of length exactly the region size. -/
theorem claim_C8_read_all_memory_swaps_and_fills
    (read_ok : Nat → Nat → Bool) (mem : Nat → Nat) (r : SnapshotRegion)
    (hpb : r.page_boundaries = []) (hsize : 0 < r.region_size)
    (hprev : r.previous_values.length = 0 ∨ r.previous_values.length = r.region_size)
    (hok : (read_all_memory read_ok mem r).1 = Except.ok ()) :
    (read_all_memory read_ok mem r).2.previous_values = r.current_values ∧
    (read_all_memory read_ok mem r).2.current_values =
      read_fill mem r.base_address r.region_size ∧
    (read_all_memory read_ok mem r).2.current_values.length = r.region_size := by
  have hbuf := swapped_buffer_length r hsize hprev
  have hpbe : r.page_boundaries.isEmpty := by simp [hpb]
  by_cases hsuccess : read_ok r.base_address r.region_size
  · have heq : read_all_memory read_ok mem r =
        (Except.ok (),
          { r with current_values := read_fill mem r.base_address r.region_size
                   previous_values := r.current_values }) := by
      simp only [read_all_memory, hpbe, if_true, hbuf, hsuccess]
    rw [heq]
    exact ⟨rfl, rfl, read_fill_length _ _ _⟩
  · exfalso
    simp only [read_all_memory, hpbe, if_true, hbuf, hsuccess] at hok
    simp at hok

theorem claim_C8_witness :
    (([] : List Nat) = [] ∧ 0 < 4 ∧
      ((4 : Nat) = 0 ∨ (4 : Nat) = 4) ∧
      (read_all_memory (fun _ _ => true) (fun a => a % 256)
        ⟨4096, 4, [9, 9, 9, 9], [5, 5, 5, 5], [], []⟩).1 = Except.ok ()) ∧
    ((read_all_memory (fun _ _ => true) (fun a => a % 256)
        ⟨4096, 4, [9, 9, 9, 9], [5, 5, 5, 5], [], []⟩).2.previous_values = [9, 9, 9, 9] ∧
      (read_all_memory (fun _ _ => true) (fun a => a % 256)
        ⟨4096, 4, [9, 9, 9, 9], [5, 5, 5, 5], [], []⟩).2.current_values =
        read_fill (fun a => a % 256) 4096 4 ∧
      (read_all_memory (fun _ _ => true) (fun a => a % 256)
        ⟨4096, 4, [9, 9, 9, 9], [5, 5, 5, 5], [], []⟩).2.current_values.length = 4) :=
  ⟨⟨rfl, by decide, by decide, rfl⟩,
    claim_C8_read_all_memory_swaps_and_fills (fun _ _ => true) (fun a => a % 256)
      ⟨4096, 4, [9, 9, 9, 9], [5, 5, 5, 5], [], []⟩ rfl (by decide) (by decide) rfl⟩

/-! ### Pointer scanner (`pointer_scan_executor_task.rs`) -/

/-- `PointerScanResult` (base address, module attribution and the offsets chain from
root to target). -/
structure PointerScanResult where
  base_address : Nat
  module_name : String
  module_offset : Nat
  offsets : List Nat
  is_module : Bool
  deriving Repr, DecidableEq

/-- The result cap of the pointer scan. -/
def MAX_RESULTS : Nat := 250000

/-- A loaded module: display name, base address and size. -/
structure Module where
  module_name : String
  base_address : Nat
  region_size : Nat
  deriving Repr, DecidableEq

/-- Modelled from the spec: `MemoryQueryer::address_to_module` (its implementation
lives in `MemoryQueryerImpl`, not under `src/`): resolve an address to the module
containing it, as `(name, offset)`. -/
def address_to_module (address : Nat) (modules : List Module) : Option (String × Nat) :=
  match modules.find? (fun m =>
      decide (m.base_address ≤ address ∧ address < m.base_address + m.region_size)) with
  | some m => some (m.module_name, address - m.base_address)
  | none => none

/-- Insert one observed pointer into the value → addresses map, keeping the key
order of the `BTreeMap` (`pointer_map.entry(value).or_insert_with(Vec::new).push`). -/
def btree_insert (pointer_map : List (Nat × List Nat)) (value pointer_address : Nat) :
    List (Nat × List Nat) :=
  match pointer_map with
  | [] => [(value, [pointer_address])]
  | (key, addresses) :: rest =>
    if value < key then (value, [pointer_address]) :: (key, addresses) :: rest
    else if value = key then (key, addresses ++ [pointer_address]) :: rest
    else (key, addresses) :: btree_insert rest value pointer_address

/-- `collect_pointer_values`: walk every region's current values in pointer-size
strides and record each plausible pointer value (within `[min_addr, max_addr]`)
against the address where it was observed. A region is a pair of its base address
and its current byte values. -/
def collect_pointer_values (regions : List (Nat × List Nat))
    (pointer_size min_addr max_addr : Nat)
    (pointer_map : List (Nat × List Nat)) : List (Nat × List Nat) :=
  regions.foldl
    (fun pointer_map region =>
      let base_address := region.1
      let bytes := region.2
      if bytes.length < pointer_size then pointer_map
      else
        (List.range (bytes.length / pointer_size)).foldl
          (fun pointer_map k =>
            let offset := k * pointer_size
            let value := read_le_value (fun i => bytes.getD i 0) offset pointer_size
            if min_addr ≤ value ∧ value ≤ max_addr then
              btree_insert pointer_map value (base_address + offset)
            else pointer_map)
          pointer_map)
    pointer_map

/-- The little-endian decode of the target address in `scan_task`: a 4-byte value as
u32, an 8-byte value as u64, anything else as 0. -/
def decode_target_address (target_bytes : List Nat) : Nat :=
  match target_bytes.length with
  | 4 => read_le_value (fun i => target_bytes.getD i 0) 0 4
  | 8 => read_le_value (fun i => target_bytes.getD i 0) 0 8
  | _ => 0

/-- The running state of the reverse BFS: accumulated results, the visited
`(address, depth)` set, and the next frontier being built for this depth. -/
structure PointerScanState where
  results : List PointerScanResult
  visited : List (Nat × Nat)
  next_frontier : List (Nat × List Nat)
  deriving Repr, DecidableEq

/-- The innermost loop body of `scan_task` for one `pointer_address`: push a result
while below the cap, break (second component `false`) once the cap is reached —
before the visited check, as in the source — else enqueue unvisited addresses for
the next depth. -/
def process_pointer_address (modules : List Module) (state : PointerScanState)
    (offset depth pointer_address : Nat) (offsets : List Nat) :
    PointerScanState × Bool :=
  let new_offsets := offset :: offsets
  let state :=
    if state.results.length < MAX_RESULTS then
      let attribution :=
        match address_to_module pointer_address modules with
        | some (found_module_name, offset_addr) => (found_module_name, offset_addr, true)
        | none => ("", pointer_address, false)
      { state with results := state.results ++
          [⟨pointer_address, attribution.1, attribution.2.1, new_offsets, attribution.2.2⟩] }
    else state
  if MAX_RESULTS ≤ state.results.length then (state, false)
  else if state.visited.contains (pointer_address, depth + 1) then (state, true)
  else
    ({ state with visited := state.visited ++ [(pointer_address, depth + 1)]
                  next_frontier := state.next_frontier ++ [(pointer_address, new_offsets)] },
      true)

/-- Loop over the pointer addresses of one map entry, honoring the break. -/
def process_address_list (modules : List Module) (state : PointerScanState)
    (offset depth : Nat) (offsets : List Nat) :
    List Nat → PointerScanState × Bool
  | [] => (state, true)
  | pointer_address :: rest =>
    let step := process_pointer_address modules state offset depth pointer_address offsets
    if step.2 then process_address_list modules step.1 offset depth offsets rest
    else (step.1, false)

/-- Loop over the map entries of one range query, honoring the break. -/
def process_entry_list (modules : List Module) (state : PointerScanState)
    (target depth : Nat) (offsets : List Nat) :
    List (Nat × List Nat) → PointerScanState × Bool
  | [] => (state, true)
  | (value, pointer_addresses) :: rest =>
    let offset := target - value
    let step := process_address_list modules state offset depth offsets pointer_addresses
    if step.2 then process_entry_list modules step.1 target depth offsets rest
    else (step.1, false)

/-- Loop over the frontier of one depth, honoring the break; each frontier target
queries the ordered map for entries within `[target - max_offset, target + max_offset]`. -/
def process_frontier (pointer_map : List (Nat × List Nat)) (modules : List Module)
    (max_offset depth : Nat) (state : PointerScanState) :
    List (Nat × List Nat) → PointerScanState
  | [] => state
  | (target, offsets) :: rest =>
    let start := target - max_offset
    let stop := target + max_offset
    let entries := pointer_map.filter (fun e => decide (start ≤ e.1 ∧ e.1 ≤ stop))
    let step := process_entry_list modules state target depth offsets entries
    if step.2 then process_frontier pointer_map modules max_offset depth step.1 rest
    else step.1

/-- The depth loop of `scan_task` (depths `0..max_depth`; stops early when the next
frontier is empty; cooperative cancellation is not modelled — the uncancelled run). -/
def scan_depths (pointer_map : List (Nat × List Nat)) (modules : List Module)
    (max_offset : Nat) :
    Nat → Nat → List (Nat × List Nat) → List PointerScanResult → List (Nat × Nat) →
      List PointerScanResult
  | 0, _, _, results, _ => results
  | remaining + 1, depth, frontier, results, visited =>
    let state := process_frontier pointer_map modules max_offset depth
      ⟨results, visited, []⟩ frontier
    if state.next_frontier.isEmpty then state.results
    else scan_depths pointer_map modules max_offset remaining (depth + 1)
      state.next_frontier state.results state.visited

/-- `PointerScanExecutorTask::scan_task`, after value collection: build the pointer
map from the statics and heaps snapshots (each a list of `(base, bytes)` regions),
decode the target address, and run the bounded reverse BFS. Always returns a result
list — there is no error path. -/
def scan_task (statics_regions heaps_regions : List (Nat × List Nat))
    (scan_statics scan_heaps : Bool) (pointer_size : Nat) (target_bytes : List Nat)
    (max_offset max_depth_param max_user_addr : Nat) (modules : List Module) :
    List PointerScanResult :=
  let target_address := decode_target_address target_bytes
  let max_depth := Nat.max max_depth_param 1
  let pointer_map :=
    if scan_statics then
      collect_pointer_values statics_regions pointer_size 0 max_user_addr []
    else []
  let pointer_map :=
    if scan_heaps then
      collect_pointer_values heaps_regions pointer_size 0 max_user_addr pointer_map
    else pointer_map
  scan_depths pointer_map modules max_offset max_depth 0 [(target_address, [])] [] []

/-- C4: with a pointer map recording exactly that address 0x100 holds value 0x200 and
address 0x400 holds value 0x100 (two 8-byte heap regions), a pointer scan for target
0x200 with max depth 2 and max offset 0 produces a result with base address 0x400 and
offsets chain [0, 0]. -/
theorem claim_C4_pointer_scan_two_hop_scenario :
    ∃ r ∈ scan_task []
        [(0x100, [0, 2, 0, 0, 0, 0, 0, 0]), (0x400, [0, 1, 0, 0, 0, 0, 0, 0])]
        false true 8 [0, 2, 0, 0, 0, 0, 0, 0] 0 2 0x7FFFFFFFFFFF [],
      r.base_address = 0x400 ∧ r.offsets = [0, 0] := by
  decide

/-- C10: a pointer scan started with a target address value whose byte length is
neither 4 nor 8 does not fail or return an error: `scan_task` is total (it returns a
plain result list, with no error path) and decodes such a target to address 0, so the
scan runs to completion exactly as a scan for target address 0 would. -/
theorem claim_C10_bad_target_length_scans_with_address_zero
    (statics_regions heaps_regions : List (Nat × List Nat))
    (scan_statics scan_heaps : Bool) (pointer_size : Nat) (target_bytes : List Nat)
    (max_offset max_depth_param max_user_addr : Nat) (modules : List Module)
    (h4 : target_bytes.length ≠ 4) (h8 : target_bytes.length ≠ 8) :
    decode_target_address target_bytes = 0 ∧
    scan_task statics_regions heaps_regions scan_statics scan_heaps pointer_size
        target_bytes max_offset max_depth_param max_user_addr modules =
      scan_task statics_regions heaps_regions scan_statics scan_heaps pointer_size
        [0, 0, 0, 0] max_offset max_depth_param max_user_addr modules := by
  have hdec : decode_target_address target_bytes = 0 := by
    unfold decode_target_address
    split
    next heq => exact absurd heq h4
    next heq => exact absurd heq h8
    next => rfl
  refine ⟨hdec, ?_⟩
  simp only [scan_task, hdec]
  rfl

theorem claim_C10_witness :
    (([7] : List Nat).length ≠ 4 ∧ ([7] : List Nat).length ≠ 8) ∧
    (decode_target_address [7] = 0 ∧
      scan_task [] [(0x100, [0, 2, 0, 0, 0, 0, 0, 0])] false true 8 [7] 0 2
          0x7FFFFFFFFFFF [] =
        scan_task [] [(0x100, [0, 2, 0, 0, 0, 0, 0, 0])] false true 8 [0, 0, 0, 0] 0 2
          0x7FFFFFFFFFFF []) :=
  ⟨⟨by decide, by decide⟩,
    claim_C10_bad_target_length_scans_with_address_zero [] [(0x100, [0, 2, 0, 0, 0, 0, 0, 0])]
      false true 8 [7] 0 2 0x7FFFFFFFFFFF [] (by decide) (by decide)⟩

/-! ### Task progress values (§4.4, §4.7) -/

/-- The progress value the pointer scan publishes after finishing depth `depth`
(0-indexed) of `max_depth`:
`((depth + 1) as f32 / max_depth as f32) * 100.0` in the source; the arithmetic is
modelled exactly over ℚ. -/
def pointer_scan_progress (depth max_depth : Nat) : ℚ :=
  ((depth : ℚ) + 1) / (max_depth : ℚ) * 100

/-- The periodic progress value the value collector publishes:
`(processed as f32 / total_region_count as f32) * 100.0`, where `processed` is the
processed-region counter. -/
def value_collector_progress (processed total_region_count : Nat) : ℚ :=
  (processed : ℚ) / (total_region_count : ℚ) * 100

/-- C5 counterexample: the claim says every published progress value lies in `[0, 1]`
and that the pointer scan's progress after depth d equals `(d+1)/D`; but after depth
0 of a depth-1 scan the code publishes `((0+1)/1) * 100 = 100`, which is neither in
`[0, 1]` nor equal to `(0+1)/1 = 1`. -/
theorem claim_C5_counterexample :
    pointer_scan_progress 0 1 = 100 ∧ ¬ pointer_scan_progress 0 1 ≤ 1 ∧
      pointer_scan_progress 0 1 ≠ ((0 : ℚ) + 1) / 1 := by
  refine ⟨?_, ?_, ?_⟩ <;> norm_num [pointer_scan_progress]

/-- C5 (amended): every progress value the pointer scan and value collector publish
lies in `[0, 100]` (a percentage, not `[0, 1]`): after finishing depth `d` (0-indexed)
of a pointer scan with max depth `D`, the published progress equals `100 * (d+1) / D`,
and the value collector's periodic progress equals `100 * processed / total_regions`
(published with `processed < total_regions`, as the counter is read before the
increment of the final region is visible to the reporting branch). -/
theorem claim_C5_amended_progress_is_percentage
    (depth max_depth processed total_region_count : Nat)
    (hd : depth < max_depth) (hp : processed < total_region_count) :
    pointer_scan_progress depth max_depth = 100 * ((depth : ℚ) + 1) / (max_depth : ℚ) ∧
    0 ≤ pointer_scan_progress depth max_depth ∧
    pointer_scan_progress depth max_depth ≤ 100 ∧
    value_collector_progress processed total_region_count =
      100 * (processed : ℚ) / (total_region_count : ℚ) ∧
    0 ≤ value_collector_progress processed total_region_count ∧
    value_collector_progress processed total_region_count ≤ 100 := by
  have hD : (0 : ℚ) < (max_depth : ℚ) := by
    exact_mod_cast Nat.pos_of_ne_zero (by omega)
  have hT : (0 : ℚ) < (total_region_count : ℚ) := by
    exact_mod_cast Nat.pos_of_ne_zero (by omega)
  have hd1 : ((depth : ℚ) + 1) ≤ (max_depth : ℚ) := by exact_mod_cast hd
  have hp1 : (processed : ℚ) ≤ (total_region_count : ℚ) := by
    exact_mod_cast Nat.le_of_lt hp
  refine ⟨by unfold pointer_scan_progress; ring, ?_, ?_, by
    unfold value_collector_progress; ring, ?_, ?_⟩
  · unfold pointer_scan_progress
    positivity
  · unfold pointer_scan_progress
    have h1 : ((depth : ℚ) + 1) / (max_depth : ℚ) ≤ 1 := by
      rw [div_le_one hD]
      exact hd1
    nlinarith
  · unfold value_collector_progress
    positivity
  · unfold value_collector_progress
    have h1 : (processed : ℚ) / (total_region_count : ℚ) ≤ 1 := by
      rw [div_le_one hT]
      exact hp1
    nlinarith

theorem claim_C5_witness :
    (0 < 2 ∧ 1 < 4) ∧
    (pointer_scan_progress 0 2 = 100 * ((0 : ℚ) + 1) / (2 : ℚ) ∧
      0 ≤ pointer_scan_progress 0 2 ∧ pointer_scan_progress 0 2 ≤ 100 ∧
      value_collector_progress 1 4 = 100 * (1 : ℚ) / (4 : ℚ) ∧
      0 ≤ value_collector_progress 1 4 ∧ value_collector_progress 1 4 ≤ 100) :=
  ⟨⟨by decide, by decide⟩, by
    have h := claim_C5_amended_progress_is_percentage 0 2 1 4 (by decide) (by decide)
    simpa using h⟩

/-! ### Element-scan alignment selection (`element_scan_request_executor.rs`) -/

/-- Modelled from the spec: `MemoryAlignment` — the alignment is 1, 2, 4, 8 or 16
bytes (its own source file is not under `src/`; the variant names appear in the
sources that are). -/
inductive MemoryAlignment where
  | Alignment1
  | Alignment2
  | Alignment4
  | Alignment8
  | Alignment16
  deriving Repr, DecidableEq

/-- The byte value of a `MemoryAlignment`. -/
def MemoryAlignment.toNat : MemoryAlignment → Nat
  | .Alignment1 => 1
  | .Alignment2 => 2
  | .Alignment4 => 4
  | .Alignment8 => 8
  | .Alignment16 => 16

/-- Modelled from the spec: `MemoryAlignment::from` on an `i32` unit size. The spec
pins only the five legal values 1/2/4/8/16; any other size is modelled as
`Alignment1` (no requested built-in data type has such a unit size). -/
def memory_alignment_from_size (size : Int) : MemoryAlignment :=
  if size = 2 then .Alignment2
  else if size = 4 then .Alignment4
  else if size = 8 then .Alignment8
  else if size = 16 then .Alignment16
  else .Alignment1

/-- `u64 → i32` conversion of a unit size: `try_into::<i32>().ok()`. -/
def int32_try_from (n : Nat) : Option Int :=
  if n ≤ 2147483647 then some (n : Int) else none

/-- The unit-size agreement loop of `ElementScanRequest::execute`: walk the requested
data types' unit sizes, skipping those that do not convert to `i32`; return the
agreed size (if any) and whether mixed sizes were seen (which breaks the loop). -/
def common_unit_size : Option Int → List Nat → Option Int × Bool
  | size, [] => (size, false)
  | size, unit_size_u64 :: rest =>
    match int32_try_from unit_size_u64 with
    | none => common_unit_size size rest
    | some unit_size =>
      match size with
      | some existing =>
        if existing ≠ unit_size then (size, true)
        else common_unit_size size rest
      | none => common_unit_size (some unit_size) rest

/-- The memory-alignment selection of `ElementScanRequest::execute`: the explicit
settings alignment if set; otherwise, when fast scan is enabled: the fast-scan
alignment if set, else 16 bytes when fast-scan-last-digits is set, else the common
unit size when all requested data types agree, else 1; when fast scan is disabled,
1. `unit_sizes` are the requested data types' unit sizes in bytes. -/
def choose_memory_alignment (explicit_alignment : Option MemoryAlignment)
    (fast_scan_enabled : Bool) (fast_scan_alignment : Option MemoryAlignment)
    (fast_scan_last_digits : Option Nat) (unit_sizes : List Nat) : MemoryAlignment :=
  match explicit_alignment with
  | some alignment => alignment
  | none =>
    if fast_scan_enabled then
      match fast_scan_alignment with
      | some fast_alignment => fast_alignment
      | none =>
        if fast_scan_last_digits.isSome then MemoryAlignment.Alignment16
        else
          let scanned := common_unit_size none unit_sizes
          if scanned.2 then MemoryAlignment.Alignment1
          else
            match scanned.1 with
            | some size => memory_alignment_from_size size
            | none => MemoryAlignment.Alignment1
    else
      MemoryAlignment.Alignment1

/-- The alignment selection exactly as the spec sentence words it, with no
fast-scan-enabled gate: explicit from settings if set; else fast-scan alignment if
set; else 16 if fast-scan-last-digits is set; else the common unit size when all
types agree; else 1. Stated for comparison with `choose_memory_alignment`. -/
def choose_memory_alignment_per_spec (explicit_alignment : Option MemoryAlignment)
    (fast_scan_alignment : Option MemoryAlignment)
    (fast_scan_last_digits : Option Nat) (unit_sizes : List Nat) : MemoryAlignment :=
  match explicit_alignment with
  | some alignment => alignment
  | none =>
    match fast_scan_alignment with
    | some fast_alignment => fast_alignment
    | none =>
      if fast_scan_last_digits.isSome then MemoryAlignment.Alignment16
      else
        let scanned := common_unit_size none unit_sizes
        if scanned.2 then MemoryAlignment.Alignment1
        else
          match scanned.1 with
          | some size => memory_alignment_from_size size
          | none => MemoryAlignment.Alignment1

/-- C6 counterexample: the claim omits the fast-scan-enabled gate. With fast scan
disabled, no explicit alignment, fast-scan alignment set to 8 and a single u32 data
type, the code selects alignment 1, while the claim's cascade selects 8. -/
theorem claim_C6_counterexample :
    choose_memory_alignment none false (some .Alignment8) none [4] =
        MemoryAlignment.Alignment1 ∧
      choose_memory_alignment_per_spec none (some .Alignment8) none [4] =
        MemoryAlignment.Alignment8 ∧
      choose_memory_alignment none false (some .Alignment8) none [4] ≠
        choose_memory_alignment_per_spec none (some .Alignment8) none [4] := by
  decide

/-- C6 (amended): the element scan's memory alignment is the explicit settings
alignment if set; otherwise, **when fast scan is enabled**, the claim's remaining
cascade applies unchanged (fast-scan alignment if set; else 16 if
fast-scan-last-digits is set; else the common agreed unit size; else 1); when fast
scan is disabled and no explicit alignment is set, the alignment is 1. The selected
alignment is always one of 1/2/4/8/16 bytes. -/
theorem claim_C6_amended_alignment_selection
    (explicit_alignment : Option MemoryAlignment) (fast_scan_enabled : Bool)
    (fast_scan_alignment : Option MemoryAlignment) (fast_scan_last_digits : Option Nat)
    (unit_sizes : List Nat) :
    choose_memory_alignment explicit_alignment fast_scan_enabled fast_scan_alignment
        fast_scan_last_digits unit_sizes =
      (match explicit_alignment with
        | some alignment => alignment
        | none =>
          if fast_scan_enabled then
            choose_memory_alignment_per_spec none fast_scan_alignment
              fast_scan_last_digits unit_sizes
          else MemoryAlignment.Alignment1) ∧
    (choose_memory_alignment explicit_alignment fast_scan_enabled fast_scan_alignment
        fast_scan_last_digits unit_sizes).toNat ∈ [1, 2, 4, 8, 16] := by
  constructor
  · cases explicit_alignment <;> cases fast_scan_enabled <;> rfl
  · cases choose_memory_alignment explicit_alignment fast_scan_enabled
      fast_scan_alignment fast_scan_last_digits unit_sizes <;> decide

/-! ### Memory queryer page retrieval (`memory_queryer.rs`) -/

/-- A normalized memory region: base address and size. -/
structure NormalizedRegion where
  base_address : Nat
  region_size : Nat
  deriving Repr, DecidableEq

/-- `MemoryProtectionEnum` as a set of flags. -/
structure MemoryProtectionEnum where
  write : Bool := false
  execute : Bool := false
  copy_on_write : Bool := false
  no_cache : Bool := false
  write_combine : Bool := false
  deriving Repr, DecidableEq

/-- `MemoryTypeEnum` as a set of flags. -/
structure MemoryTypeEnum where
  type_none : Bool := false
  type_private : Bool := false
  type_image : Bool := false
  type_mapped : Bool := false
  deriving Repr, DecidableEq

/-- All four allocation types (`NONE | PRIVATE | IMAGE | MAPPED`). -/
def all_memory_types : MemoryTypeEnum :=
  { type_none := true, type_private := true, type_image := true, type_mapped := true }

inductive RegionBoundsHandling where
  | Exclude
  | Resize
  deriving Repr, DecidableEq

/-- The `memory_settings.json`-backed settings the queryer reads. -/
structure MemorySettings where
  memory_type_none : Bool
  memory_type_private : Bool
  memory_type_image : Bool
  memory_type_mapped : Bool
  required_write : Bool
  required_execute : Bool
  required_copy_on_write : Bool
  excluded_write : Bool
  excluded_execute : Bool
  excluded_copy_on_write : Bool
  excluded_no_cache : Bool
  excluded_write_combine : Bool
  only_main_module_image : Bool
  start_address : Nat
  end_address : Nat
  only_query_usermode : Bool
  deriving Repr, DecidableEq

/-- The OS-facing environment of the queryer: the outcome of
`get_virtual_pages` for given filters, the loaded modules, the usermode bounds and
the process name. The page query itself is platform code outside the core, so it is
a parameter: the claim quantifies over every result of the underlying OS page
query. -/
structure QueryEnv where
  virtual_pages : MemoryProtectionEnum → MemoryProtectionEnum → MemoryTypeEnum →
    Nat → Nat → RegionBoundsHandling → List NormalizedRegion
  modules : List Module
  min_usermode_address : Nat
  max_usermode_address : Nat
  process_name : String

/-- The snapshot cap: `MAX_SCAN_SNAPSHOT_BYTES = 2 * 1024 * 1024 * 1024` (2 GiB). -/
def MAX_SCAN_SNAPSHOT_BYTES : Nat := 2 * 1024 * 1024 * 1024

/-- Total byte size of a region list. -/
def total_region_bytes (regions : List NormalizedRegion) : Nat :=
  (regions.map NormalizedRegion.region_size).sum

/-- `MemoryQueryer::get_required_protection_settings`. -/
def get_required_protection_settings (settings : MemorySettings) : MemoryProtectionEnum :=
  { write := settings.required_write
    execute := settings.required_execute
    copy_on_write := settings.required_copy_on_write }

/-- `MemoryQueryer::get_excluded_protection_settings`. -/
def get_excluded_protection_settings (settings : MemorySettings) : MemoryProtectionEnum :=
  { write := settings.excluded_write
    execute := settings.excluded_execute
    copy_on_write := settings.excluded_copy_on_write
    no_cache := settings.excluded_no_cache
    write_combine := settings.excluded_write_combine }

/-- `MemoryQueryer::get_allowed_type_settings`. -/
def get_allowed_type_settings (settings : MemorySettings) : MemoryTypeEnum :=
  { type_none := settings.memory_type_none
    type_private := settings.memory_type_private
    type_image := settings.memory_type_image
    type_mapped := settings.memory_type_mapped }

/-- Rust `str::eq_ignore_ascii_case`. -/
def eq_ignore_ascii_case (a b : String) : Bool :=
  a.data.map Char.toLower == b.data.map Char.toLower

/-- `MemoryQueryer::query_pages_from_usermode_memory`: all usermode pages, any
protection, all four allocation types. -/
def query_pages_from_usermode_memory (env : QueryEnv) : List NormalizedRegion :=
  env.virtual_pages {} {} all_memory_types env.min_usermode_address
    env.max_usermode_address RegionBoundsHandling.Exclude

/-- `MemoryQueryer::query_pages_from_usermode_writable`. -/
def query_pages_from_usermode_writable (env : QueryEnv)
    (allowed_type_flags : MemoryTypeEnum) : List NormalizedRegion :=
  env.virtual_pages { write := true } {} allowed_type_flags env.min_usermode_address
    env.max_usermode_address RegionBoundsHandling.Exclude

/-- `MemoryQueryer::truncate_regions_to_max` (the loop; the caller passes the total
accumulated so far, initially 0). -/
def truncate_regions_loop (max_bytes total : Nat) :
    List NormalizedRegion → List NormalizedRegion
  | [] => []
  | region :: rest =>
    if max_bytes ≤ total then []
    else
      let size := region.region_size
      let remaining := max_bytes - total
      if size ≤ remaining then
        region :: truncate_regions_loop max_bytes (total + size) rest
      else if 0 < remaining then [⟨region.base_address, remaining⟩]
      else []

/-- `MemoryQueryer::truncate_regions_to_max`. -/
def truncate_regions_to_max (regions : List NormalizedRegion) (max_bytes : Nat) :
    List NormalizedRegion :=
  if max_bytes = 0 then [] else truncate_regions_loop max_bytes 0 regions

/-- The configured page query of `query_pages_from_settings`, after the optional
main-module-image filter. -/
def settings_configured_regions (env : QueryEnv) (settings : MemorySettings) :
    List NormalizedRegion :=
  let required_page_flags := get_required_protection_settings settings
  let excluded_page_flags := get_excluded_protection_settings settings
  let allowed_type_flags := get_allowed_type_settings settings
  let bounds :=
    if settings.only_query_usermode then
      (env.min_usermode_address, env.max_usermode_address)
    else (settings.start_address, settings.end_address)
  let normalized_regions := env.virtual_pages required_page_flags excluded_page_flags
    allowed_type_flags bounds.1 bounds.2 RegionBoundsHandling.Exclude
  if settings.only_main_module_image then
    let main_module_name := (env.modules.find?
      (fun m => eq_ignore_ascii_case m.module_name env.process_name)).map
        Module.module_name
    match main_module_name with
    | some name =>
      normalized_regions.filter (fun region =>
        match address_to_module region.base_address env.modules with
        | some (module_name, _) => eq_ignore_ascii_case module_name name
        | none => true)
    | none => normalized_regions
  else normalized_regions

/-- The relaxed retry of `query_pages_from_settings` when the configured filters
matched zero bytes: the same query without required protection flags. -/
def settings_relaxed_regions (env : QueryEnv) (settings : MemorySettings) :
    List NormalizedRegion :=
  let excluded_page_flags := get_excluded_protection_settings settings
  let allowed_type_flags := get_allowed_type_settings settings
  let bounds :=
    if settings.only_query_usermode then
      (env.min_usermode_address, env.max_usermode_address)
    else (settings.start_address, settings.end_address)
  env.virtual_pages {} excluded_page_flags allowed_type_flags bounds.1 bounds.2
    RegionBoundsHandling.Exclude

/-- `MemoryQueryer::query_pages_from_settings`: the configured query plus the
cascading fallback ladder for zero-byte and oversize results. -/
def query_pages_from_settings (env : QueryEnv) (settings : MemorySettings) :
    List NormalizedRegion :=
  let normalized_regions := settings_configured_regions env settings
  let total_size_in_bytes := total_region_bytes normalized_regions
  if total_size_in_bytes = 0 then
    let relaxed_regions := settings_relaxed_regions env settings
    let relaxed_size_in_bytes := total_region_bytes relaxed_regions
    if 0 < relaxed_size_in_bytes then relaxed_regions
    else
      let fallback_regions := query_pages_from_usermode_writable env all_memory_types
      if fallback_regions.isEmpty then query_pages_from_usermode_memory env
      else fallback_regions
  else if MAX_SCAN_SNAPSHOT_BYTES < total_size_in_bytes then
    let fallback_regions := query_pages_from_usermode_writable env all_memory_types
    let fallback_size_in_bytes := total_region_bytes fallback_regions
    if MAX_SCAN_SNAPSHOT_BYTES < fallback_size_in_bytes then
      let private_only_regions := query_pages_from_usermode_writable env
        { type_private := true }
      let private_only_size_in_bytes := total_region_bytes private_only_regions
      if MAX_SCAN_SNAPSHOT_BYTES < private_only_size_in_bytes then
        let trimmed := truncate_regions_to_max private_only_regions MAX_SCAN_SNAPSHOT_BYTES
        if trimmed.isEmpty then [] else trimmed
      else private_only_regions
    else if fallback_regions.isEmpty then query_pages_from_usermode_memory env
    else fallback_regions
  else normalized_regions

theorem truncate_regions_loop_total_le (max_bytes : Nat) (regions : List NormalizedRegion) :
    ∀ total : Nat,
      total_region_bytes (truncate_regions_loop max_bytes total regions) ≤
        max_bytes - total := by
  induction regions with
  | nil => intro t; simp [truncate_regions_loop, total_region_bytes]
  | cons region rest ih =>
    intro t
    rw [truncate_regions_loop]
    by_cases h1 : max_bytes ≤ t
    · simp [h1, total_region_bytes]
    · rw [if_neg h1]
      by_cases h2 : region.region_size ≤ max_bytes - t
      · rw [if_pos h2]
        have := ih (t + region.region_size)
        simp only [total_region_bytes, List.map_cons, List.sum_cons] at this ⊢
        omega
      · rw [if_neg h2, if_pos (by omega)]
        simp only [total_region_bytes, List.map_cons, List.map_nil, List.sum_cons,
          List.sum_nil]
        omega

/-- Truncation never exceeds the requested byte cap. -/
theorem truncate_regions_to_max_total_le (regions : List NormalizedRegion)
    (max_bytes : Nat) :
    total_region_bytes (truncate_regions_to_max regions max_bytes) ≤ max_bytes := by
  unfold truncate_regions_to_max
  by_cases h : max_bytes = 0
  · simp [h, total_region_bytes]
  · rw [if_neg h]
    have := truncate_regions_loop_total_le max_bytes regions 0
    omega

/-- The zero-byte-fallback environment of the C7 counterexample: the configured query
(which requires writable pages) matches nothing, and the relaxed retry returns a
single 3 GiB region. -/
def c7_cex_env : QueryEnv :=
  { virtual_pages := fun required _ _ _ _ _ =>
      if required.write then [] else [⟨0, 3221225472⟩]
    modules := []
    min_usermode_address := 0
    max_usermode_address := 140737488355327
    process_name := "proc" }

/-- Default-like memory settings: private + image types, required write, usermode
only, no main-module-image restriction. -/
def c7_settings : MemorySettings :=
  { memory_type_none := false
    memory_type_private := true
    memory_type_image := true
    memory_type_mapped := false
    required_write := true
    required_execute := false
    required_copy_on_write := false
    excluded_write := false
    excluded_execute := false
    excluded_copy_on_write := false
    excluded_no_cache := false
    excluded_write_combine := false
    only_main_module_image := false
    start_address := 0
    end_address := 0
    only_query_usermode := true }

/-- C7 counterexample: `query_pages_from_settings` can return a region list whose
total exceeds the 2 GiB snapshot cap. When the configured filters match 0 bytes, the
relaxed-protection retry is returned without any cap check: here it returns 3 GiB. -/
theorem claim_C7_counterexample :
    MAX_SCAN_SNAPSHOT_BYTES <
      total_region_bytes (query_pages_from_settings c7_cex_env c7_settings) ∧
    total_region_bytes (query_pages_from_settings c7_cex_env c7_settings) =
      3221225472 := by
  constructor
  · decide
  · decide

/-- C7 (amended): the zero-byte fallbacks are returned without a cap check, so
`query_pages_from_settings` can exceed the 2 GiB cap (see the counterexample); but
when the configured filters, the usermode+writable fallback and the private-only
writable fallback each exceed the cap, the returned list is the truncation of the
private-only list and its total size is at most 2 GiB. -/
theorem claim_C7_amended_oversize_cascade_truncates
    (env : QueryEnv) (settings : MemorySettings)
    (h1 : MAX_SCAN_SNAPSHOT_BYTES <
      total_region_bytes (settings_configured_regions env settings))
    (h2 : MAX_SCAN_SNAPSHOT_BYTES <
      total_region_bytes (query_pages_from_usermode_writable env all_memory_types))
    (h3 : MAX_SCAN_SNAPSHOT_BYTES <
      total_region_bytes (query_pages_from_usermode_writable env
        { type_private := true })) :
    query_pages_from_settings env settings =
      truncate_regions_to_max
        (query_pages_from_usermode_writable env { type_private := true })
        MAX_SCAN_SNAPSHOT_BYTES ∧
    total_region_bytes (query_pages_from_settings env settings) ≤
      MAX_SCAN_SNAPSHOT_BYTES := by
  have heq : query_pages_from_settings env settings =
      truncate_regions_to_max
        (query_pages_from_usermode_writable env { type_private := true })
        MAX_SCAN_SNAPSHOT_BYTES := by
    unfold query_pages_from_settings
    rw [if_neg (by omega), if_pos h1, if_pos h2, if_pos h3]
    by_cases he : (truncate_regions_to_max
        (query_pages_from_usermode_writable env { type_private := true })
        MAX_SCAN_SNAPSHOT_BYTES).isEmpty
    · rw [if_pos he]
      exact (List.isEmpty_iff.mp he).symm
    · rw [if_neg he]
  refine ⟨heq, ?_⟩
  rw [heq]
  exact truncate_regions_to_max_total_le _ _

/-- The all-oversize environment of the C7 witness: every page query returns a single
3 GiB region. -/
def c7_witness_env : QueryEnv :=
  { virtual_pages := fun _ _ _ _ _ _ => [⟨0, 3221225472⟩]
    modules := []
    min_usermode_address := 0
    max_usermode_address := 140737488355327
    process_name := "proc" }

theorem claim_C7_witness :
    (MAX_SCAN_SNAPSHOT_BYTES <
        total_region_bytes (settings_configured_regions c7_witness_env c7_settings) ∧
      MAX_SCAN_SNAPSHOT_BYTES <
        total_region_bytes (query_pages_from_usermode_writable c7_witness_env
          all_memory_types) ∧
      MAX_SCAN_SNAPSHOT_BYTES <
        total_region_bytes (query_pages_from_usermode_writable c7_witness_env
          { type_private := true })) ∧
    (query_pages_from_settings c7_witness_env c7_settings =
        truncate_regions_to_max
          (query_pages_from_usermode_writable c7_witness_env { type_private := true })
          MAX_SCAN_SNAPSHOT_BYTES ∧
      total_region_bytes (query_pages_from_settings c7_witness_env c7_settings) ≤
        MAX_SCAN_SNAPSHOT_BYTES) :=
  ⟨⟨by decide, by decide, by decide⟩,
    claim_C7_amended_oversize_cascade_truncates c7_witness_env c7_settings
      (by decide) (by decide) (by decide)⟩

/-! ### AOB data type hex parse/format (`data_type_aob.rs`)

Strings are modelled as `List Char` and bytes as `Nat` values below 256. The Rust
source chunks the UTF-8 bytes of the cleaned string; on the ASCII strings involved
this coincides with chunking characters. -/

/-- Rust `char::is_whitespace`: the Unicode White_Space property. -/
def is_rust_whitespace (c : Char) : Bool :=
  c == ' ' || c == '\t' || c == '\n' || c == '\r' ||
  c.toNat == 0x0B || c.toNat == 0x0C || c.toNat == 0x85 || c.toNat == 0xA0 ||
  c.toNat == 0x1680 || (0x2000 ≤ c.toNat && c.toNat ≤ 0x200A) ||
  c.toNat == 0x2028 || c.toNat == 0x2029 || c.toNat == 0x202F ||
  c.toNat == 0x205F || c.toNat == 0x3000

/-- The AOB token separators: whitespace or a comma. -/
def is_aob_separator (c : Char) : Bool :=
  is_rust_whitespace c || c == ','

/-- Rust `str::trim`: strip leading and trailing whitespace. -/
def trim_chars (s : List Char) : List Char :=
  ((s.dropWhile is_rust_whitespace).reverse.dropWhile is_rust_whitespace).reverse

/-- Rust `str::split(pattern)`: the pieces between separator matches, empty pieces
included. -/
def split_chars (p : Char → Bool) : List Char → List (List Char)
  | [] => [[]]
  | c :: rest =>
    match split_chars p rest with
    | [] => [[]]
    | piece :: pieces =>
      if p c then [] :: piece :: pieces else (c :: piece) :: pieces

/-- The numeric value of one hex digit (`u8::from_str_radix` digit handling: both
cases accepted). -/
def hex_digit_value (c : Char) : Option Nat :=
  if '0' ≤ c ∧ c ≤ '9' then some (c.toNat - '0'.toNat)
  else if 'a' ≤ c ∧ c ≤ 'f' then some (c.toNat - 'a'.toNat + 10)
  else if 'A' ≤ c ∧ c ≤ 'F' then some (c.toNat - 'A'.toNat + 10)
  else none

/-- Rust `u8::from_str_radix(s, 16)`: an optional leading `+`, then at least one hex
digit, overflowing above 255 is an error. -/
def u8_from_str_radix_16 (s : List Char) : Option Nat :=
  let digits := if s.take 1 = ['+'] then s.drop 1 else s
  if digits.isEmpty then none
  else
    digits.foldl
      (fun acc c =>
        match acc, hex_digit_value c with
        | some value, some d =>
          if value * 16 + d ≤ 255 then some (value * 16 + d) else none
        | _, _ => none)
      (some 0)

/-- `cleaned.starts_with("0x") || cleaned.starts_with("0X")` followed by
`&cleaned[2..]`. -/
def strip_hex_marker (s : List Char) : List Char :=
  if s.take 2 = ['0', 'x'] ∨ s.take 2 = ['0', 'X'] then s.drop 2 else s

/-- The paired-hex walk of the single-token branch (`cleaned.as_bytes().chunks(2)`,
each pair parsed as one byte; the caller has checked the length is even). -/
def parse_hex_pairs : List Char → Option (List Nat)
  | [] => some []
  | c1 :: c2 :: rest =>
    match u8_from_str_radix_16 [c1, c2], parse_hex_pairs rest with
    | some value, some values => some (value :: values)
    | _, _ => none
  | [_] => none

/-- The token loop of `DataTypeAob::parse_hex_bytes`: trim each token, strip an
optional `0x`/`0X`, skip a token that became empty, zero-pad a single digit, reject
lengths other than two, and parse the pair. -/
def parse_tokens : List (List Char) → Option (List Nat)
  | [] => some []
  | token :: rest =>
    let token := trim_chars token
    let token := strip_hex_marker token
    if token.isEmpty then parse_tokens rest
    else
      let token := if token.length = 1 then '0' :: token else token
      if token.length ≠ 2 then none
      else
        match u8_from_str_radix_16 token, parse_tokens rest with
        | some value, some values => some (value :: values)
        | _, _ => none

/-- `DataTypeAob::parse_hex_bytes`. -/
def parse_hex_bytes (value_string : List Char) : Option (List Nat) :=
  let trimmed := trim_chars value_string
  if trimmed.isEmpty then none
  else
    let tokens := (split_chars is_aob_separator trimmed).filter (fun t => !t.isEmpty)
    if tokens.length ≤ 1 then
      -- Single token: treat the whole string as packed hex. The source replaces
      -- commas with spaces and joins on whitespace, i.e. removes every separator.
      let cleaned := trimmed.filter (fun c => !is_aob_separator c)
      let cleaned := strip_hex_marker cleaned
      if cleaned.length % 2 ≠ 0 then none
      else parse_hex_pairs cleaned
    else parse_tokens tokens

/-- The uppercase hex digit of a value below 16 (`format!("{:02X}", value)`). -/
def to_hex_digit (n : Nat) : Char :=
  if n < 10 then Char.ofNat ('0'.toNat + n) else Char.ofNat ('A'.toNat + n - 10)

/-- The two-digit uppercase hex rendering of one byte. -/
def format_hex_pair (value : Nat) : List Char :=
  [to_hex_digit (value / 16), to_hex_digit (value % 16)]

/-- `Vec::join` on character lists. -/
def join_with (sep : List Char) : List (List Char) → List Char
  | [] => []
  | [t] => t
  | t :: rest => t ++ sep ++ join_with sep rest

/-- `DataTypeAob::format_hex_bytes`: space-separated uppercase two-digit hex. -/
def format_hex_bytes (value_bytes : List Nat) : List Char :=
  join_with [' '] (value_bytes.map format_hex_pair)

/-! ### The AOB round-trip proof -/

set_option maxRecDepth 4096 in
/-- Character-level facts about the sixteen uppercase hex digits the formatter
emits: not whitespace, not a separator, and not an `x`/`X` marker or sign. -/
theorem hex_digit_char_facts : ∀ n : Nat, n < 16 →
    is_rust_whitespace (to_hex_digit n) = false ∧
    is_aob_separator (to_hex_digit n) = false ∧
    to_hex_digit n ≠ 'x' ∧ to_hex_digit n ≠ 'X' := by
  decide

set_option maxRecDepth 4096 in
/-- Parsing the formatter's two-digit pair recovers the byte. -/
theorem u8_from_str_radix_16_format_pair :
    ∀ x : Nat, x < 256 → u8_from_str_radix_16 (format_hex_pair x) = some x := by
  decide

theorem dropWhile_eq_self_of_head (p : Char → Bool) (s : List Char)
    (h : ∀ c, s.head? = some c → p c = false) : s.dropWhile p = s := by
  cases s with
  | nil => rfl
  | cons c rest => simp [List.dropWhile_cons, h c rfl]

theorem trim_chars_eq_self (s : List Char)
    (hhead : ∀ c, s.head? = some c → is_rust_whitespace c = false)
    (hlast : ∀ c, s.getLast? = some c → is_rust_whitespace c = false) :
    trim_chars s = s := by
  unfold trim_chars
  rw [dropWhile_eq_self_of_head _ _ hhead,
    dropWhile_eq_self_of_head _ _ (by
      intro c hc
      rw [List.head?_reverse] at hc
      exact hlast c hc),
    List.reverse_reverse]

theorem format_hex_bytes_head (x : Nat) (b : List Nat) :
    (format_hex_bytes (x :: b)).head? = some (to_hex_digit (x / 16)) := by
  cases b <;> simp [format_hex_bytes, join_with, format_hex_pair]

theorem format_hex_bytes_ne_nil (x : Nat) (b : List Nat) :
    format_hex_bytes (x :: b) ≠ [] := by
  intro h
  have := format_hex_bytes_head x b
  rw [h] at this
  exact absurd this (by simp)

theorem format_hex_bytes_getLast (x : Nat) (b : List Nat) :
    ∃ n, n < 16 ∧ (format_hex_bytes (x :: b)).getLast? = some (to_hex_digit n) := by
  induction b generalizing x with
  | nil =>
    exact ⟨x % 16, Nat.mod_lt _ (by norm_num), by
      simp [format_hex_bytes, join_with, format_hex_pair]⟩
  | cons y rest ih =>
    obtain ⟨n, hn, hlast⟩ := ih y
    refine ⟨n, hn, ?_⟩
    have hshape : format_hex_bytes (x :: y :: rest) =
        format_hex_pair x ++ ([' '] ++ format_hex_bytes (y :: rest)) := by
      simp [format_hex_bytes, join_with]
    rw [hshape, List.getLast?_append_of_ne_nil _ (by
      simp only [List.cons_append]
      exact fun h => absurd h (by simp))]
    rw [List.getLast?_append_of_ne_nil _ (format_hex_bytes_ne_nil y rest)] at *
    · exact hlast

theorem split_chars_ne_nil (p : Char → Bool) (s : List Char) : split_chars p s ≠ [] := by
  cases s with
  | nil => simp [split_chars]
  | cons c rest =>
    unfold split_chars
    cases h : split_chars p rest with
    | nil => simp
    | cons piece pieces => by_cases hc : p c <;> simp [hc]

theorem split_chars_cons_sep (p : Char → Bool) (c : Char) (hc : p c = true)
    (s : List Char) : split_chars p (c :: s) = [] :: split_chars p s := by
  cases h : split_chars p s with
  | nil => exact absurd h (split_chars_ne_nil p s)
  | cons piece pieces =>
    conv_lhs => rw [split_chars]
    rw [h]
    simp [hc]

theorem split_chars_append_no_sep (p : Char → Bool) (t : List Char)
    (ht : ∀ c ∈ t, p c = false) (s piece : List Char) (pieces : List (List Char))
    (hs : split_chars p s = piece :: pieces) :
    split_chars p (t ++ s) = (t ++ piece) :: pieces := by
  induction t with
  | nil => simpa using hs
  | cons c t ih =>
    have hc : p c = false := ht c (by simp)
    have hrec := ih (fun d hd => ht d (by simp [hd]))
    simp only [List.cons_append]
    unfold split_chars
    rw [hrec]
    simp [hc]

theorem split_chars_no_sep (p : Char → Bool) (t : List Char)
    (ht : ∀ c ∈ t, p c = false) : split_chars p t = [t] := by
  have := split_chars_append_no_sep p t ht [] [] [] (by simp [split_chars])
  simpa using this

theorem split_chars_join_with (p : Char → Bool) (sep : Char) (hsep : p sep = true) :
    ∀ toks : List (List Char), toks ≠ [] →
      (∀ t ∈ toks, ∀ c ∈ t, p c = false) →
      split_chars p (join_with [sep] toks) = toks := by
  intro toks
  induction toks with
  | nil => intro h; exact absurd rfl h
  | cons t rest ih =>
    intro _ hall
    cases rest with
    | nil =>
      simp only [join_with]
      exact split_chars_no_sep p t (hall t (by simp))
    | cons t2 rest2 =>
      have hji : join_with [sep] (t :: t2 :: rest2) =
          t ++ (sep :: join_with [sep] (t2 :: rest2)) := by
        simp [join_with]
      rw [hji]
      have hrest : split_chars p (sep :: join_with [sep] (t2 :: rest2)) =
          [] :: (t2 :: rest2) := by
        rw [split_chars_cons_sep p sep hsep]
        rw [ih (by simp) (fun u hu c hc => hall u (by simp [hu]) c hc)]
      have := split_chars_append_no_sep p t (hall t (by simp)) _ [] (t2 :: rest2) hrest
      simpa using this

theorem strip_hex_marker_pair (c1 c2 : Char) (hx : c2 ≠ 'x') (hX : c2 ≠ 'X') :
    strip_hex_marker [c1, c2] = [c1, c2] := by
  unfold strip_hex_marker
  rw [if_neg]
  simp [hx, hX]

theorem trim_chars_pair (c1 c2 : Char) (h1 : is_rust_whitespace c1 = false)
    (h2 : is_rust_whitespace c2 = false) : trim_chars [c1, c2] = [c1, c2] := by
  apply trim_chars_eq_self
  · intro c hc
    simp only [List.head?_cons, Option.some.injEq] at hc
    rwa [← hc]
  · intro c hc
    simp only [List.getLast?_cons_cons, List.getLast?_singleton, Option.some.injEq] at hc
    rwa [← hc]

/-- The token loop recovers the bytes from the formatter's two-digit tokens. -/
theorem parse_tokens_map_format_pair (b : List Nat) (hb : ∀ x ∈ b, x < 256) :
    parse_tokens (b.map format_hex_pair) = some b := by
  induction b with
  | nil => rfl
  | cons x rest ih =>
    have hx : x < 256 := hb x (by simp)
    have hdiv : x / 16 < 16 := by omega
    have hmod : x % 16 < 16 := Nat.mod_lt _ (by norm_num)
    obtain ⟨hws1, _, _, _⟩ := hex_digit_char_facts (x / 16) hdiv
    obtain ⟨hws2, _, hx2, hX2⟩ := hex_digit_char_facts (x % 16) hmod
    have htrim : trim_chars (format_hex_pair x) = format_hex_pair x :=
      trim_chars_pair _ _ hws1 hws2
    have hstrip : strip_hex_marker (format_hex_pair x) = format_hex_pair x :=
      strip_hex_marker_pair _ _ hx2 hX2
    have hu8 := u8_from_str_radix_16_format_pair x hx
    have hihv := ih (fun y hy => hb y (by simp [hy]))
    simp only [List.map_cons]
    unfold parse_tokens
    simp only [htrim]
    simp only [hstrip]
    simp only [hihv]
    simp only [format_hex_pair] at hu8 ⊢
    simp [hu8]

theorem aob_round_trip_single (x : Nat) (hx : x < 256) :
    parse_hex_bytes (format_hex_bytes [x]) = some [x] := by
  have hdiv : x / 16 < 16 := by omega
  have hmod : x % 16 < 16 := Nat.mod_lt _ (by norm_num)
  obtain ⟨hws1, hsep1, _, _⟩ := hex_digit_char_facts (x / 16) hdiv
  obtain ⟨hws2, hsep2, hx2, hX2⟩ := hex_digit_char_facts (x % 16) hmod
  have hu8 := u8_from_str_radix_16_format_pair x hx
  have hfmt : format_hex_bytes [x] = format_hex_pair x := by
    simp [format_hex_bytes, join_with]
  rw [hfmt]
  have htrim : trim_chars (format_hex_pair x) = format_hex_pair x :=
    trim_chars_pair _ _ hws1 hws2
  have hsplit : split_chars is_aob_separator (format_hex_pair x) =
      [format_hex_pair x] := by
    apply split_chars_no_sep
    intro c hc
    simp only [format_hex_pair, List.mem_cons, List.not_mem_nil, or_false] at hc
    rcases hc with rfl | rfl
    · exact hsep1
    · exact hsep2
  have hfilter : (format_hex_pair x).filter (fun c => !is_aob_separator c) =
      format_hex_pair x := by
    apply List.filter_eq_self.mpr
    intro c hc
    simp only [format_hex_pair, List.mem_cons, List.not_mem_nil, or_false] at hc
    rcases hc with rfl | rfl
    · simp [hsep1]
    · simp [hsep2]
  have hstrip : strip_hex_marker (format_hex_pair x) = format_hex_pair x :=
    strip_hex_marker_pair _ _ hx2 hX2
  unfold parse_hex_bytes
  simp only [htrim, hsplit, hfilter, hstrip]
  simp only [format_hex_pair] at hu8 ⊢
  simp [parse_hex_pairs, hu8]

/-- C9: formatting a non-empty byte vector with the AOB data type (space-separated
uppercase two-digit hex) and parsing the resulting string yields exactly the
original bytes. -/
theorem claim_C9_aob_format_parse_round_trip (b : List Nat) (hne : b ≠ [])
    (hbytes : ∀ x ∈ b, x < 256) :
    parse_hex_bytes (format_hex_bytes b) = some b := by
  match b, hne with
  | [x], _ => exact aob_round_trip_single x (hbytes x (by simp))
  | x :: y :: rest, _ =>
    have hx : x < 256 := hbytes x (by simp)
    have hxdiv : x / 16 < 16 := by omega
    have htrim : trim_chars (format_hex_bytes (x :: y :: rest)) =
        format_hex_bytes (x :: y :: rest) := by
      apply trim_chars_eq_self
      · intro c hc
        rw [format_hex_bytes_head] at hc
        obtain rfl : to_hex_digit (x / 16) = c := by simpa using hc
        exact (hex_digit_char_facts _ hxdiv).1
      · intro c hc
        obtain ⟨n, hn, hl⟩ := format_hex_bytes_getLast x (y :: rest)
        rw [hl] at hc
        obtain rfl : to_hex_digit n = c := by simpa using hc
        exact (hex_digit_char_facts _ hn).1
    have hne2 := format_hex_bytes_ne_nil x (y :: rest)
    have hni : (format_hex_bytes (x :: y :: rest)).isEmpty = false := by
      cases hfe : (format_hex_bytes (x :: y :: rest)).isEmpty
      · rfl
      · exact absurd (List.isEmpty_iff.mp hfe) hne2
    have hsplit : split_chars is_aob_separator (format_hex_bytes (x :: y :: rest)) =
        (x :: y :: rest).map format_hex_pair := by
      apply split_chars_join_with is_aob_separator ' ' (by decide)
      · simp
      · intro t ht c hc
        obtain ⟨z, hz, rfl⟩ := List.mem_map.mp ht
        have hzlt : z < 256 := hbytes z hz
        simp only [format_hex_pair, List.mem_cons, List.not_mem_nil, or_false] at hc
        rcases hc with rfl | rfl
        · exact ((hex_digit_char_facts (z / 16) (by omega)).2).1
        · exact ((hex_digit_char_facts (z % 16) (Nat.mod_lt _ (by norm_num))).2).1
    have hfilter : ((x :: y :: rest).map format_hex_pair).filter
        (fun t => !t.isEmpty) = (x :: y :: rest).map format_hex_pair := by
      apply List.filter_eq_self.mpr
      intro t ht
      obtain ⟨z, _, rfl⟩ := List.mem_map.mp ht
      simp [format_hex_pair]
    unfold parse_hex_bytes
    simp only [htrim, hni, Bool.false_eq_true, if_false, hsplit, hfilter]
    rw [if_neg (by simp)]
    exact parse_tokens_map_format_pair _ hbytes

theorem claim_C9_witness :
    (([0xDE, 0xAD, 0xBE, 0xEF] : List Nat) ≠ [] ∧
      ∀ x ∈ ([0xDE, 0xAD, 0xBE, 0xEF] : List Nat), x < 256) ∧
    parse_hex_bytes (format_hex_bytes [0xDE, 0xAD, 0xBE, 0xEF]) =
      some [0xDE, 0xAD, 0xBE, 0xEF] :=
  ⟨⟨by decide, by decide⟩,
    claim_C9_aob_format_parse_round_trip [0xDE, 0xAD, 0xBE, 0xEF] (by decide) (by decide)⟩
